import Mathlib

/-!
Verification development for the press formatting library (src/press.hpp).

The C++ source is shallowly embedded: format strings are modelled as
`List Char` (a C string without its terminating byte; the scanners receive
the length that `strlen` would compute), machine integers as `Nat`/`Int`
with explicit wrap-around where the source relies on it, and the buffered
`Writer` as an explicit state record.  Loops that the source writes with
`while`/recursion are embedded with an explicit fuel argument so that every
definition is a computable structural recursion; each fuel-zero default is
chosen to agree with the function's value at an exhausted scan position, and
every caller passes enough fuel for the loop to run to completion.
-/

namespace Press

/-- NUL, the C string terminator and the unset `thousands_sep` sentinel. -/
def NUL : Char := Char.ofNat 0

/-- Reads byte `i` of the format string, as `fmt[i]` in C.  The source only
dereferences indices below the scanned length, so the default is never
observed. -/
def getc (fmt : List Char) (i : Nat) : Char := fmt.getD i NUL

/-- Conversion of an `unsigned char` value (below 256) to `signed char`, as
performed by the `return found ? number : -1;` line of
`Format::consume_number`. -/
def ucToSc (n : Nat) : Int := if n < 128 then (n : Int) else (n : Int) - 256

/-- Mirrors `press::is_literal_brace` (press.hpp:676): the three byte
sequence open-brace open-brace close-brace starting at `index`.  The C test
`index > len - 3` over `int` is equivalent to `index + 3 > len` over `Nat`. -/
def is_literal_brace (fmt : List Char) (len index : Nat) : Bool :=
  if index + 3 > len then false
  else getc fmt index == '{' && getc fmt (index + 1) == '{' && getc fmt (index + 2) == '}'

/-- Loop body of `press::is_balanced` (press.hpp:684), with fuel.  The
fuel-zero default equals the value the source returns once `index >= len`. -/
def is_balancedAux (fmt : List Char) (len : Nat) : Nat → Nat → Nat → Bool
  | 0, _, bopen => bopen == 0
  | fuel + 1, index, bopen =>
    if index ≥ len then bopen == 0
    else if getc fmt index = '{' then
      if is_literal_brace fmt len index then is_balancedAux fmt len fuel (index + 3) bopen
      else is_balancedAux fmt len fuel (index + 1) (bopen + 1)
    else if getc fmt index = '}' then
      if bopen > 0 then is_balancedAux fmt len fuel (index + 1) (bopen - 1)
      else is_balancedAux fmt len fuel (index + 1) bopen
    else is_balancedAux fmt len fuel (index + 1) bopen

/-- Mirrors `press::is_balanced` (press.hpp:684) at its default arguments
`index = 0`, `open = 0`. -/
def is_balanced (fmt : List Char) (len : Nat) : Bool :=
  is_balancedAux fmt len (len + 1) 0 0

/-- Loop of `press::find_partner` (press.hpp:700), with fuel.  `none`
stands for the C sentinel `-1`. -/
def find_partnerAux (fmt : List Char) (len : Nat) : Nat → Nat → Option Nat
  | 0, _ => none
  | fuel + 1, index =>
    if index ≥ len then none
    else if getc fmt index = '}' then some index
    else find_partnerAux fmt len fuel (index + 1)

/-- Mirrors `press::find_partner` (press.hpp:700). -/
def find_partner (fmt : List Char) (len index : Nat) : Option Nat :=
  find_partnerAux fmt len (len + 1) index

/-- Loop body of `press::count_specifiers` (press.hpp:710), with fuel. -/
def count_specAux (fmt : List Char) (len : Nat) : Nat → Nat → Nat → Nat
  | 0, count, _ => count
  | fuel + 1, count, index =>
    if index ≥ len then count
    else if getc fmt index ≠ '{' then count_specAux fmt len fuel count (index + 1)
    else if is_literal_brace fmt len index then count_specAux fmt len fuel count (index + 3)
    else
      match find_partner fmt len (index + 1) with
      | none => count
      | some p => count_specAux fmt len fuel (count + 1) (p + 1)

/-- Mirrors `press::count_specifiers` (press.hpp:710) at its default
arguments `count = 0`, `index = 0`. -/
def count_specifiers (fmt : List Char) (len : Nat) : Nat :=
  count_specAux fmt len (len + 1) 0 0

/-- Mirrors the `pressfmtcheck` macro (press.hpp:23): the two static
assertions hold exactly when this returns `true` for the format string and
the argument count. -/
def pressfmtcheck (fmt : List Char) (count : Nat) : Bool :=
  is_balanced fmt fmt.length && count_specifiers fmt fmt.length ≥ count

/-- Digit-run loop of `Format::consume_number` (press.hpp:215), with fuel.
`number` is the `unsigned char` accumulator, hence the wrap modulo 256.
Returns the final bookmark, accumulator and `found` flag. -/
def consume_numberAux (fmt : List Char) (len : Nat) :
    Nat → Nat → Nat → Bool → Nat × Nat × Bool
  | 0, bookmark, number, found => (bookmark, number, found)
  | fuel + 1, bookmark, number, found =>
    if bookmark < len ∧ '0' ≤ getc fmt bookmark ∧ getc fmt bookmark ≤ '9' then
      consume_numberAux fmt len fuel (bookmark + 1)
        ((number * 10 + (getc fmt bookmark).toNat - '0'.toNat) % 256) true
    else (bookmark, number, found)

/-- Mirrors `Format::consume_number` (press.hpp:215): parses a digit run
into an `unsigned char` accumulator and converts it to `signed char`;
yields `-1` when no digit is present.  Returns the value and the advanced
bookmark. -/
def consume_number (fmt : List Char) (bookmark len : Nat) : Int × Nat :=
  let r := consume_numberAux fmt len (len + 1) bookmark 0 false
  (if r.2.2 then ucToSc r.2.1 else -1, r.1)

/-- Mirrors `press::Format` (press.hpp:110) after `reset()`: the default
field values are exactly those set by `reset`. -/
structure Format where
  zero_pad : Bool := false
  left_justify : Bool := false
  hex : Bool := false
  hex_upper : Bool := false
  oct : Bool := false
  leading_space : Bool := false
  width : Int := -1
  precision : Int := -1
  index : Int := -1
  thousands_sep : Char := NUL
deriving DecidableEq, Repr

/-- The thousands-separator character chosen by `Format::parse`
(press.hpp:135) from the active locale's decimal point `dp`. -/
def sep_for (dp : Char) : Char :=
  if dp = '.' then ',' else if dp = ',' then '.' else ','

/-- The `// consume sign flag` block of `Format::parse` (press.hpp:124):
state is the pair of the settings struct and the bookmark. -/
def parse_sign_stage (fmt : List Char) (s : Format × Nat) : Format × Nat :=
  if getc fmt s.2 = ' ' then ({ s.1 with leading_space := true }, s.2 + 1) else s

/-- The `// consume separator flags` block of `Format::parse`
(press.hpp:133); `dp` is the locale decimal point. -/
def parse_sep_stage (dp : Char) (fmt : List Char) (s : Format × Nat) : Format × Nat :=
  if getc fmt s.2 = ',' then ({ s.1 with thousands_sep := sep_for dp }, s.2 + 1) else s

/-- The `// consume padding flags` block of `Format::parse` (press.hpp:143):
a zero-pad request is ignored when a thousands separator was parsed. -/
def parse_pad_stage (fmt : List Char) (s : Format × Nat) : Format × Nat :=
  if getc fmt s.2 = '0' then
    (if s.1.thousands_sep = NUL then { s.1 with zero_pad := true } else s.1, s.2 + 1)
  else if getc fmt s.2 = '-' then ({ s.1 with left_justify := true }, s.2 + 1)
  else s

/-- The `// consume representation flags` block of `Format::parse`
(press.hpp:158). -/
def parse_base_stage (fmt : List Char) (s : Format × Nat) : Format × Nat :=
  if getc fmt s.2 = 'x' then ({ s.1 with hex := true }, s.2 + 1)
  else if getc fmt s.2 = 'X' then ({ s.1 with hex_upper := true }, s.2 + 1)
  else if getc fmt s.2 = 'o' then ({ s.1 with oct := true }, s.2 + 1)
  else s

/-- The `// consume width` line of `Format::parse` (press.hpp:177). -/
def parse_width_stage (fmt : List Char) (len : Nat) (s : Format × Nat) : Format × Nat :=
  let r := consume_number fmt s.2 len
  ({ s.1 with width := r.1 }, r.2)

/-- The `// consume precision` block of `Format::parse` (press.hpp:182). -/
def parse_prec_stage (fmt : List Char) (len : Nat) (s : Format × Nat) : Format × Nat :=
  if getc fmt s.2 = '.' then
    let r := consume_number fmt (s.2 + 1) len
    ({ s.1 with precision := r.1 }, r.2)
  else s

/-- The `// consume index` block of `Format::parse` (press.hpp:191). -/
def parse_index_stage (fmt : List Char) (len : Nat) (s : Format × Nat) : Format × Nat :=
  if getc fmt s.2 = '@' then
    let r := consume_number fmt (s.2 + 1) len
    ({ s.1 with index := r.1 }, r.2)
  else s

/-- The `if (bookmark >= len) return bookmark;` guard preceding each block
of `Format::parse`.  The C early return leaves the remaining blocks
unexecuted; since the bookmark never decreases and `len` is fixed, every
later guard also skips, so guarding each block is the same function as
returning early. -/
def parse_guard (len : Nat) (stage : Format × Nat → Format × Nat) (s : Format × Nat) :
    Format × Nat :=
  if s.2 ≥ len then s else stage s

/-- Mirrors `Format::parse` (press.hpp:117): the guarded blocks in source
order, starting from the by-reference settings struct `cfg` and the offset
`first`.  Returns the filled settings and the final bookmark. -/
def Format.parse (dp : Char) (fmt : List Char) (first len : Nat) (cfg : Format) :
    Format × Nat :=
  parse_guard len (parse_index_stage fmt len) <|
    parse_guard len (parse_prec_stage fmt len) <|
      parse_guard len (parse_width_stage fmt len) <|
        parse_guard len (parse_base_stage fmt) <|
          parse_guard len (parse_pad_stage fmt) <|
            parse_guard len (parse_sep_stage dp fmt) <|
              parse_guard len (parse_sign_stage fmt) (cfg, first)

/-- The digit loop shared by the `stringify_int*` functions
(press.hpp:480, 504, 526): emits `toChar (i % base)` and divides until `i`
reaches zero, least-significant digit first.  64 bits of fuel always
suffice; callers pass 66. -/
def digit_loop (toChar : Nat → Char) (base : Nat) : Nat → Nat → List Char
  | 0, _ => []
  | fuel + 1, i =>
    if i = 0 then [] else toChar (i % base) :: digit_loop toChar base fuel (i / base)

/-- The decimal digit character `(i % 10) + '0'`. -/
def decChar (d : Nat) : Char := Char.ofNat (d + 48)

/-- Mirrors `Parameter::stringify_int` (press.hpp:459) instantiated at
`T = long long`: the signed-decimal stringification, with the hard-coded
literal for `LLONG_MIN` whose magnitude cannot be negated in C. -/
def stringify_int (i : Int) : List Char :=
  if i = -(2 ^ 63) then
    ['-', '9', '2', '2', '3', '3', '7', '2', '0', '3', '6', '8', '5', '4', '7', '7', '5', '8', '0', '8']
  else
    let negative := i < 0
    let n := i.natAbs
    let digitsPart := if n = 0 then ['0'] else digit_loop decChar 10 66 n
    (digitsPart ++ if negative then ['-'] else []).reverse

/-- Mirrors `Parameter::stringify_int` (press.hpp:459) instantiated at
`T = unsigned long long`: no sign handling, decimal digits only. -/
def stringify_int_u (n : Nat) : List Char :=
  (if n = 0 then ['0'] else digit_loop decChar 10 66 n).reverse

/-- The hexadecimal digit character of `Parameter::stringify_int_hex`
(press.hpp:506): `h + '0'` below ten, else `(h - 10) + base_character`. -/
def hexChar (uppercase : Bool) (h : Nat) : Char :=
  let base_character := if uppercase then 'A' else 'a'
  if h < 10 then Char.ofNat (h + 48) else Char.ofNat (h - 10 + base_character.toNat)

/-- Mirrors `Parameter::stringify_int_hex` (press.hpp:495). -/
def stringify_int_hex (i : Nat) (uppercase : Bool) : List Char :=
  (if i = 0 then ['0'] else digit_loop (hexChar uppercase) 16 66 i).reverse

/-- Mirrors `Parameter::stringify_int_oct` (press.hpp:519); the octal digit
character is `(i % 8) + 48`. -/
def stringify_int_oct (i : Nat) : List Char :=
  (if i = 0 then ['0'] else digit_loop decChar 8 66 i).reverse

/-- The base dispatch at the top of `Parameter::do_convert_integer`
(press.hpp:541-553) for an unsigned argument: hex when `x` or `X` was
parsed, octal for `o`, decimal otherwise. -/
def uint_digit_string (number : Nat) (format : Format) : List Char :=
  if format.hex || format.hex_upper then stringify_int_hex number format.hex_upper
  else if format.oct then stringify_int_oct number
  else stringify_int_u number

/-- The thousands-separated digit emission of `Parameter::do_convert_integer`
(press.hpp:589-600): after the leading group of `written % 3` digits, each
iteration writes a group of three digits and, between groups, the separator.
Each list element is one `Writer::write` payload. -/
def sep_chunks (string : List Char) (written : Nat) (sep : Char) :
    Nat → Nat → List (List Char)
  | 0, _ => []
  | fuel + 1, place =>
    if place < written then
      ((string.drop place).take 3) ::
        (if place + 3 < written then [[sep]] else []) ++
          sep_chunks string written sep fuel (place + 3)
    else []

/-- The width/separator/padding logic of `Parameter::do_convert_integer`
(press.hpp:556-607), shared by the signed and unsigned instantiations:
`string` is the stringified integer already produced at press.hpp:541-553
and `numPositive` is `is_positive(number)`.  The result is the ordered list
of `Writer::write` payloads the source emits. -/
def do_convert_integer_tail (string : List Char) (numPositive : Bool)
    (format : Format) (runtime_width : Int) : List (List Char) :=
  let written : Int := string.length
  -- calculate width
  let width : Int :=
    if runtime_width = -1 then
      if format.width ≥ 0 then
        format.width - (if format.leading_space && numPositive then 1 else 0)
      else 0
    else runtime_width
  -- calculate how many thousands separators are needed
  let seps : Int :=
    if format.thousands_sep ≠ NUL then
      if written % 3 = 0 then written / 3 - 1 else written / 3
    else 0
  let width := if format.thousands_sep ≠ NUL then width - seps else width
  -- more padding calculations
  let needed := max width written
  let pad : Char := if format.zero_pad then '0' else ' '
  -- write a leading space if requested
  let lead : List (List Char) :=
    if format.leading_space && numPositive then [[' ']] else []
  -- determine if minus sign needs to be written before leading zeros
  let negative_and_zero_pad := !numPositive && format.zero_pad
  let minusFirst : List (List Char) :=
    if negative_and_zero_pad then [string.take 1] else []
  -- apply leading pad chars
  let leadPads : List (List Char) :=
    if !format.left_justify then List.replicate (needed - written).toNat [pad] else []
  -- write the integer string
  let digitWrites : List (List Char) :=
    if seps = 0 then
      [string.drop (if negative_and_zero_pad then 1 else 0)]
    else
      let place := string.length % 3
      (if place ≠ 0 then [string.take place, [format.thousands_sep]] else []) ++
        sep_chunks string string.length format.thousands_sep (string.length + 3) place
  -- apply trailing pad chars
  let trailPads : List (List Char) :=
    if format.left_justify then List.replicate (needed - written).toNat [pad] else []
  lead ++ minusFirst ++ leadPads ++ digitWrites ++ trailPads

/-- Mirrors `Parameter::do_convert_integer` (press.hpp:537) at
`T = unsigned long long` (`is_positive` is constantly true there). -/
def do_convert_integer_uint (number : Nat) (format : Format)
    (runtime_width : Int) : List (List Char) :=
  do_convert_integer_tail (uint_digit_string number format) true format runtime_width

/-- Mirrors `Parameter::do_convert_integer` (press.hpp:537) at
`T = long long`: a signed argument is stringified by `stringify_int`
regardless of the base flags, and `is_positive(i)` is `i >= 0`. -/
def do_convert_integer_int (number : Int) (format : Format)
    (runtime_width : Int) : List (List Char) :=
  do_convert_integer_tail (stringify_int number) (decide (0 ≤ number)) format runtime_width

/-- The tagged value of `press::Parameter` (press.hpp:305).  `FLOAT64` is
omitted: its conversion delegates to C `snprintf` floating-point formatting,
which this embedding does not model. -/
inductive PValue
  | none_
  | sint (i : Int)
  | uint (n : Nat)
  | boolean (b : Bool)
  | character (c : Char)
  | voidp (addr : Nat)
  | strbuf (s : List Char)
  | custom (s : List Char)
deriving DecidableEq, Repr

/-- Mirrors `press::Parameter` (press.hpp:305): one typed argument with its
per-argument width/precision overrides (`-1` when unset, as stored by the
`init` overloads). -/
structure Parameter where
  val : PValue
  width : Int := -1
  precision : Int := -1
deriving DecidableEq, Repr

/-- The C conversion of a (possibly negative) `int` length value to
`size_t`, used by `Parameter::convert_string` where a signed precision is
compared against an unsigned `strlen`. -/
def szt (i : Int) : Nat := (i % (2 ^ 64)).toNat

/-- Mirrors `Parameter::convert_string` (press.hpp:636): copies
`min(precision, strlen)` bytes, the per-argument precision override winning
over the parsed one. -/
def convert_string (s : List Char) (precOverride : Int) (format : Format) :
    List (List Char) :=
  let strlength := s.length
  let len := min
    (if precOverride = -1 then
      (if format.precision < 0 then strlength else szt format.precision)
     else szt precOverride)
    strlength
  [s.take len]

/-- Mirrors `Parameter::convert` (press.hpp:397): dispatch on the stored
tag, producing the ordered `Writer::write` payloads of the corresponding
`convert_*` member (press.hpp:617-658).  The `NONE` tag falls through the
switch and writes nothing. -/
def Parameter.convert (p : Parameter) (format : Format) : List (List Char) :=
  match p.val with
  | .sint i => do_convert_integer_int i format p.width
  | .uint n => do_convert_integer_uint n format p.width
  | .strbuf s => convert_string s p.precision format
  | .character c => [[c]]
  | .boolean b => [if b then ['t', 'r', 'u', 'e'] else ['f', 'a', 'l', 's', 'e']]
  | .voidp addr => [stringify_int_hex addr false]
  | .custom s => [s]
  | .none_ => []

/-- Mirrors `press::PrintTarget` (press.hpp:103). -/
inductive PrintTarget
  | FILE_P
  | STDSTRING
  | BUFFER
deriving DecidableEq, Repr

/-- Mirrors `press::Writer` (press.hpp:245).  `stage` is the byte array
`m_buffer` points to (the user buffer for `BUFFER`, otherwise the automatic
buffer of `WRITER_BUFFER_SIZE + 1` bytes); `size` is `m_size`, `bookmark`
is `m_bookmark`, and `out` collects the bytes that `flush` has delivered to
the `FILE*` or `std::string` target. -/
structure Writer where
  target : PrintTarget
  stage : List Char
  bookmark : Nat
  size : Nat
  out : List Char
deriving DecidableEq, Repr

/-- The value of `Writer::WRITER_BUFFER_SIZE` (press.hpp:248). -/
def WRITER_BUFFER_SIZE : Nat := 1024

/-- A `memcpy` of `src` into `stage` starting at byte `pos`. -/
def listOverwrite (stage : List Char) (pos : Nat) (src : List Char) : List Char :=
  stage.take pos ++ src ++ stage.drop (pos + src.length)

/-- Mirrors `Writer::flush` (press.hpp:280).  A `BUFFER` target refuses to
flush.  A `STDSTRING` target terminates the staged bytes with NUL and
appends the staged C string to the output; a `FILE_P` target `fwrite`s
exactly the staged bytes. -/
def Writer.flush (w : Writer) : Bool × Writer :=
  match w.target with
  | .BUFFER => (false, w)
  | .STDSTRING =>
    let stage := w.stage.set w.bookmark NUL
    (true, { w with stage := stage, out := w.out ++ stage.takeWhile (· ≠ NUL), bookmark := 0 })
  | .FILE_P =>
    (true, { w with out := w.out ++ w.stage.take w.bookmark, bookmark := 0 })

/-- Recursion of `Writer::write` (press.hpp:268), with fuel: copy what fits
into the staging area and, if bytes remain and the target can flush, flush
and write the remainder.  `buf.length + 1` fuel always suffices when
`size ≥ 1` (a flush makes room for at least one byte per round). -/
def Writer.writeAux : Nat → Writer → List Char → Writer
  | 0, w, _ => w
  | fuel + 1, w, buf =>
    let count := buf.length
    let written := min (w.size - w.bookmark) count
    let w' := { w with
      stage := listOverwrite w.stage w.bookmark (buf.take written),
      bookmark := w.bookmark + written }
    if written < count then
      let f := w'.flush
      if f.1 then Writer.writeAux fuel f.2 (buf.drop written) else w'
    else w'

/-- Mirrors `Writer::write` (press.hpp:268). -/
def Writer.write (w : Writer) (buf : List Char) : Writer :=
  Writer.writeAux (buf.length + 1) w buf

/-- Mirrors `Writer::~Writer` (press.hpp:260): a nonempty `BUFFER` target
is NUL-terminated at `min(bookmark, size - 1)`; every other target is
flushed. -/
def Writer.teardown (w : Writer) : Writer :=
  if w.target = .BUFFER ∧ w.size > 0 then
    { w with stage := w.stage.set (if w.bookmark ≥ w.size then w.size - 1 else w.bookmark) NUL }
  else w.flush.2

/-- The `Writer` that `impl::printer` constructs for the `STDSTRING` target
(press.hpp:736 with press.hpp:250): automatic staging buffer of
`WRITER_BUFFER_SIZE + 1` bytes (uninitialized in C and never read before
written; modelled as NUL-filled) and `m_size = WRITER_BUFFER_SIZE`. -/
def stringWriter : Writer :=
  { target := .STDSTRING
    stage := List.replicate (WRITER_BUFFER_SIZE + 1) NUL
    bookmark := 0
    size := WRITER_BUFFER_SIZE
    out := [] }

/-- The `Writer` that `impl::printer` constructs for the `BUFFER` target:
the caller's buffer of `cap` bytes with its arbitrary initial contents
`stage0`. -/
def bufferWriter (cap : Nat) (stage0 : List Char) : Writer :=
  { target := .BUFFER, stage := stage0, bookmark := 0, size := cap, out := [] }

/-- Feeds a list of `write` payloads to a `Writer` in order. -/
def run_writes (w : Writer) (ws : List (List Char)) : Writer :=
  ws.foldl Writer.write w

/-- The placeholder text emitted for an unresolvable specifier index
(press.hpp:773). -/
def UNDEFINED : List Char :=
  ['{', 'U', 'N', 'D', 'E', 'F', 'I', 'N', 'E', 'D', '}']

/-- The literal-brace scan of the tail loop of `impl::printer`
(press.hpp:786-797), with fuel: the first position at or after `index`
where a literal brace starts, `none` if there is none before `len`. -/
def find_lbAux (fmt : List Char) (len : Nat) : Nat → Nat → Option Nat
  | 0, _ => none
  | fuel + 1, index =>
    if index < len then
      if is_literal_brace fmt len index then some index
      else find_lbAux fmt len fuel (index + 1)
    else none

/-- Wrapper for `find_lbAux` with sufficient fuel. -/
def find_lb (fmt : List Char) (len index : Nat) : Option Nat :=
  find_lbAux fmt len (len + 1) index

/-- The `for(;;)` loop of the tail handling of `impl::printer`
(press.hpp:783-810), with fuel: while a literal brace pattern is found,
emit the text before it and a single open brace, then resume 3 bytes past
it.  Returns the payloads and the final bookmark. -/
def printer_tail_loop (fmt : List Char) (len : Nat) :
    Nat → Nat → List (List Char) × Nat
  | 0, bookmark => ([], bookmark)
  | fuel + 1, bookmark =>
    match find_lb fmt len bookmark with
    | none => ([], bookmark)
    | some index =>
      let r := printer_tail_loop fmt len fuel (index + 3)
      ((fmt.drop bookmark).take (index - bookmark) :: ['{'] :: r.1, r.2)

/-- The tail handling of `impl::printer` (press.hpp:781-814): if format
bytes remain past the last specifier, emit them, honouring literal-brace
escapes. -/
def printer_tail (fmt : List Char) (len bookmark : Nat) : List (List Char) :=
  if bookmark < len then
    let r := printer_tail_loop fmt len (len + 1) bookmark
    r.1 ++ [(fmt.drop r.2).take (len - r.2)]
  else []

/-- The main specifier loop of `impl::printer` (press.hpp:740-778), with
fuel.  Per iteration: scan from `bookmark` to the next open brace, emit the
text before it; on `spec_begin ≥ len` return early (`none`: the C `return`
skips the tail handling); on a literal brace emit one open brace and repeat
without consuming the iteration counter `k`; otherwise parse the specifier,
resolve its argument index (`@N` overriding the sequential counter) and
emit either the placeholder or the converted parameter.  The fuel-zero
default is the loop's value at an exhausted bookmark. -/
def printer_loopAux (fmt : List Char) (len : Nat) (params : List Parameter)
    (dp : Char) (specCount : Nat) : Nat → Nat → Nat → List (List Char) × Option Nat
  | 0, k, bookmark => if k < specCount then ([], none) else ([], some bookmark)
  | fuel + 1, k, bookmark =>
    if k < specCount then
      let spec_begin := bookmark + ((fmt.drop bookmark).takeWhile (· ≠ '{')).length
      if spec_begin ≥ len then ([], none)
      else
        let before := (fmt.drop bookmark).take (spec_begin - bookmark)
        if is_literal_brace fmt len spec_begin then
          let r := printer_loopAux fmt len params dp specCount fuel k (spec_begin + 3)
          (before :: ['{'] :: r.1, r.2)
        else
          let pr := Format.parse dp fmt (spec_begin + 1) len {}
          let format_settings := pr.1
          let bookmark' := pr.2 + 1
          let spec_index_overridden := format_settings.index ≥ 0
          let index : Int := if spec_index_overridden then format_settings.index - 1 else k
          let body : List (List Char) :=
            if spec_index_overridden ∧ (index < 0 ∨ index ≥ params.length) then [UNDEFINED]
            else if ¬spec_index_overridden ∧ index ≥ params.length then [UNDEFINED]
            else (params.getD index.toNat ⟨.none_, -1, -1⟩).convert format_settings
          let r := printer_loopAux fmt len params dp specCount fuel (k + 1) bookmark'
          (before :: body ++ r.1, r.2)
    else ([], some bookmark)

/-- Mirrors `impl::printer` (press.hpp:730) as the ordered sequence of
`Writer::write` payloads it emits: the specifier loop followed, unless the
loop returned early, by the tail handling.  `fmt` is a C string (no NUL
byte), so `strlen` is its length. -/
def printer_writes (fmt : List Char) (params : List Parameter) (dp : Char) :
    List (List Char) :=
  let len := fmt.length
  let spec_count := count_specifiers fmt len
  let r := printer_loopAux fmt len params dp spec_count (len + 1) 0 0
  match r.2 with
  | none => r.1
  | some bookmark => r.1 ++ printer_tail fmt len bookmark

/-- Mirrors `press::sprint` (press.hpp:952): run the printer against a
`STDSTRING` writer and let the writer's destructor flush; the result is the
returned `std::string`. -/
def press_sprint (dp : Char) (fmt : List Char) (params : List Parameter) : List Char :=
  ((run_writes stringWriter (printer_writes fmt params dp)).teardown).out

/-- Mirrors `press::bprint` (press.hpp:933) for a caller buffer of `cap`
bytes with initial contents `stage0`: run the printer against a `BUFFER`
writer and let the destructor NUL-terminate; the result is the final
contents of the caller's buffer. -/
def press_bprint (dp : Char) (fmt : List Char) (params : List Parameter)
    (cap : Nat) (stage0 : List Char) : List Char :=
  ((run_writes (bufferWriter cap stage0) (printer_writes fmt params dp)).teardown).stage

/-- The untruncated rendered output of one call: the concatenation of every
byte the printer hands to `Writer::write`, i.e. the text an unbounded
target receives (for a `STDSTRING` target this equals `press_sprint`, since
the staged bytes are NUL-free C-string text). -/
def untruncated (fmt : List Char) (params : List Parameter) (dp : Char) : List Char :=
  (printer_writes fmt params dp).flatten

/-- Invariant of the `STDSTRING` writer between `write` calls: the staging
buffer has its construction-time extent, the bookmark is within `m_size`,
and the staged (pending) bytes are NUL-free, so that `flush` appends
exactly them. -/
def StrInv (w : Writer) : Prop :=
  w.target = .STDSTRING ∧ w.size = WRITER_BUFFER_SIZE ∧
    w.stage.length = WRITER_BUFFER_SIZE + 1 ∧ w.bookmark ≤ WRITER_BUFFER_SIZE ∧
    ∀ c ∈ w.stage.take w.bookmark, c ≠ NUL

/-- The bytes a `STDSTRING` writer has committed plus the bytes it has
staged: the string its destructor will have produced. -/
def obs (w : Writer) : List Char := w.out ++ w.stage.take w.bookmark

/-- A template/output byte that is ordinary text for the scanner: neither a
brace nor (being part of a C string) NUL. -/
def plainChar (c : Char) : Prop := c ≠ '{' ∧ c ≠ '}' ∧ c ≠ NUL

/-- A template built from brace-free segments with the 3-byte literal brace
escape between consecutive segments: every escape position of the claim is
a boundary between two segments. -/
def escJoin : List (List Char) → List Char
  | [] => []
  | [s] => s
  | s :: rest => s ++ '{' :: '{' :: '}' :: escJoin rest

/-- The intended rendering of `escJoin`: the same segments with a single
open brace at each escape position. -/
def braceJoin : List (List Char) → List Char
  | [] => []
  | [s] => s
  | s :: rest => s ++ '{' :: braceJoin rest

/-- The numeric base that `Parameter::do_convert_integer` selects from a
descriptor for an unsigned argument. -/
def intBase (format : Format) : Nat :=
  if format.hex || format.hex_upper then 16 else if format.oct then 8 else 10

/-- The digit character used for the base selected by `intBase`. -/
def intDigitChar (format : Format) (d : Nat) : Char :=
  if format.hex || format.hex_upper then hexChar format.hex_upper d else decChar d

/-! ### List helpers -/

theorem takeWhile_middle {p : Char → Bool} (l₁ : List Char) (c : Char) (l₂ : List Char)
    (h1 : ∀ x ∈ l₁, p x = true) (h2 : p c = false) :
    (l₁ ++ c :: l₂).takeWhile p = l₁ := by
  induction l₁ with
  | nil => simp [List.takeWhile_cons, h2]
  | cons a t ih =>
    have ha : p a = true := h1 a (by simp)
    simp only [List.cons_append, List.takeWhile_cons, ha, if_true]
    rw [ih fun x hx => h1 x (by simp [hx])]

theorem getc_middle (l₁ : List Char) (c : Char) (l₂ : List Char) :
    getc (l₁ ++ c :: l₂) l₁.length = c := by
  rw [getc, List.getD_append_right _ _ _ _ (le_refl _)]
  simp

theorem getc_middle_add (l₁ : List Char) (l₂ : List Char) (k : Nat) :
    getc (l₁ ++ l₂) (l₁.length + k) = getc l₂ k := by
  rw [getc, List.getD_append_right _ _ _ _ (Nat.le_add_right _ _), Nat.add_sub_cancel_left]
  rfl

theorem getc_mem (fmt : List Char) (i : Nat) (h : i < fmt.length) : getc fmt i ∈ fmt := by
  rw [getc, List.getD_eq_getElem fmt NUL h]
  exact List.getElem_mem h

theorem listOverwrite_length (stage src : List Char) (pos : Nat)
    (h : pos + src.length ≤ stage.length) :
    (listOverwrite stage pos src).length = stage.length := by
  simp [listOverwrite]
  omega

theorem listOverwrite_take (stage src : List Char) (pos : Nat) (h : pos ≤ stage.length) :
    (listOverwrite stage pos src).take (pos + src.length) = stage.take pos ++ src := by
  have h1 : (stage.take pos ++ src).length = pos + src.length := by simp [h]
  rw [listOverwrite, List.take_append_eq_append_take, h1,
    List.take_of_length_le (le_of_eq h1)]
  simp

theorem set_middle (l₁ : List Char) (c : Char) (l₂ : List Char) (v : Char) :
    (l₁ ++ c :: l₂).set l₁.length v = l₁ ++ v :: l₂ := by
  rw [List.set_eq_take_append_cons_drop]
  have h : l₁.length < (l₁ ++ c :: l₂).length := by simp
  rw [if_pos h, List.take_left]
  congr 1
  have : l₁.length + 1 = (l₁ ++ [c]).length := by simp
  rw [this]
  have : l₁ ++ c :: l₂ = (l₁ ++ [c]) ++ l₂ := by simp
  rw [this, List.drop_left]

/-! ### STDSTRING writer: committed-plus-staged bytes accumulate writes -/

theorem writeAux_str (fuel : Nat) :
    ∀ (w : Writer) (buf : List Char), StrInv w → (∀ c ∈ buf, c ≠ NUL) →
      (buf.length + 1 ≤ fuel ∨ (buf.length ≤ fuel ∧ w.bookmark = 0)) →
      StrInv (Writer.writeAux fuel w buf) ∧
        obs (Writer.writeAux fuel w buf) = obs w ++ buf := by
  induction fuel with
  | zero =>
    intro w buf hInv hb hf
    have hnil : buf = [] := by
      have : buf.length = 0 := by rcases hf with h | ⟨h, _⟩ <;> omega
      exact List.length_eq_zero.mp this
    subst hnil
    exact ⟨hInv, by simp [Writer.writeAux]⟩
  | succ fuel ih =>
    intro w buf hInv hb hf
    obtain ⟨tgt, stage, bm, size, outp⟩ := w
    obtain ⟨ht, hs, hst, hbm, hnul⟩ := hInv
    simp only at ht hs hst hbm hnul
    subst ht hs
    simp only [WRITER_BUFFER_SIZE] at hst hbm hnul hf ⊢
    simp only [Writer.writeAux]
    set count := buf.length with hcount
    set written := min (1024 - bm) count with hwr
    have hwle : written ≤ 1024 - bm := min_le_left _ _
    have hwc : written ≤ count := min_le_right _ _
    have hlen_take : (buf.take written).length = written := by simp; omega
    have hAlen : ((stage.take bm).length) = bm := by simp; omega
    have hA : (listOverwrite stage bm (buf.take written)).take (bm + written) =
        stage.take bm ++ buf.take written := by
      have := listOverwrite_take stage (buf.take written) bm (by omega)
      rwa [hlen_take] at this
    have hAnul : ∀ c ∈ stage.take bm ++ buf.take written, c ≠ NUL := by
      intro c hc
      rcases List.mem_append.mp hc with h | h
      · exact hnul c h
      · exact hb c (List.take_subset _ _ h)
    by_cases hlt : written < count
    · -- staging area filled; flush and continue
      rw [if_pos hlt]
      have hbig : bm + written ≤ 1024 := by omega
      have hdroplen : 0 < (stage.drop (bm + written)).length := by simp; omega
      obtain ⟨d, rest, hdr⟩ : ∃ d rest, stage.drop (bm + written) = d :: rest := by
        cases hcase : stage.drop (bm + written) with
        | nil => rw [hcase] at hdroplen; simp at hdroplen
        | cons d rest => exact ⟨d, rest, rfl⟩
      have hstage' : listOverwrite stage bm (buf.take written) =
          (stage.take bm ++ buf.take written) ++ d :: rest := by
        rw [listOverwrite, hlen_take, hdr]
      have hABlen : (stage.take bm ++ buf.take written).length = bm + written := by
        simp; omega
      have hset : (listOverwrite stage bm (buf.take written)).set (bm + written) NUL =
          (stage.take bm ++ buf.take written) ++ NUL :: rest := by
        rw [hstage', ← hABlen, set_middle]
      have htw : ((stage.take bm ++ buf.take written) ++ NUL :: rest).takeWhile
          (fun c => c ≠ NUL) = stage.take bm ++ buf.take written := by
        apply takeWhile_middle
        · intro x hx; simp [hAnul x hx]
        · simp
      have hreclen : rest.length = 1025 - (bm + written) - 1 := by
        have := congrArg List.length hdr
        simp at this
        omega
      simp only [Writer.flush]
      rw [hset, htw]
      simp only [if_true]
      have hrec := ih ⟨PrintTarget.STDSTRING,
          (stage.take bm ++ buf.take written) ++ NUL :: rest, 0, WRITER_BUFFER_SIZE,
          outp ++ (stage.take bm ++ buf.take written)⟩ (buf.drop written)
        (by
          refine ⟨rfl, rfl, ?_, by simp, by simp⟩
          simp only [WRITER_BUFFER_SIZE]
          simp
          omega)
        (fun c hc => hb c (List.drop_subset _ _ hc))
        (by
          right
          refine ⟨?_, rfl⟩
          rcases hf with h | ⟨h, hz⟩
          · simp; omega
          · have hw1024 : written = 1024 := by
              rw [hwr]
              omega
            simp
            omega)
      simp only [WRITER_BUFFER_SIZE] at hrec
      refine ⟨hrec.1, ?_⟩
      rw [hrec.2]
      simp [obs, List.append_assoc]
    · -- everything fit in the staging area
      have hwceq : written = count := by omega
      have hble : bm + count ≤ 1024 := by omega
      rw [if_neg hlt]
      constructor
      · refine ⟨rfl, rfl, ?_, ?_, ?_⟩
        · simp only [WRITER_BUFFER_SIZE]
          rw [listOverwrite_length]
          · exact hst
          · rw [hlen_take]; omega
        · simp only [WRITER_BUFFER_SIZE]; omega
        · intro c hc
          simp only at hc
          rw [hA] at hc
          exact hAnul c hc
      · simp only [obs]
        rw [hA, hwceq, hcount, List.take_length]
        simp [List.append_assoc]

theorem write_str (w : Writer) (buf : List Char) (hInv : StrInv w)
    (hb : ∀ c ∈ buf, c ≠ NUL) :
    StrInv (w.write buf) ∧ obs (w.write buf) = obs w ++ buf :=
  writeAux_str (buf.length + 1) w buf hInv hb (Or.inl (le_refl _))

theorem run_writes_str (ws : List (List Char)) :
    ∀ w : Writer, StrInv w → (∀ p ∈ ws, ∀ c ∈ p, c ≠ NUL) →
      StrInv (run_writes w ws) ∧ obs (run_writes w ws) = obs w ++ ws.flatten := by
  induction ws with
  | nil => intro w h _; exact ⟨h, by simp [run_writes]⟩
  | cons p rest ih =>
    intro w h hn
    have h1 := write_str w p h (hn p (by simp))
    have h2 := ih (w.write p) h1.1 (fun q hq => hn q (by simp [hq]))
    have hrw : run_writes w (p :: rest) = run_writes (w.write p) rest := by
      simp [run_writes]
    refine ⟨by rw [hrw]; exact h2.1, ?_⟩
    rw [hrw, h2.2, h1.2]
    simp [List.append_assoc]

theorem teardown_str (w : Writer) (h : StrInv w) : w.teardown.out = obs w := by
  obtain ⟨tgt, stage, bm, size, outp⟩ := w
  obtain ⟨ht, hs, hst, hbm, hnul⟩ := h
  simp only at ht hs hst hbm hnul
  subst ht hs
  simp only [WRITER_BUFFER_SIZE] at hst hbm hnul
  have hdroplen : 0 < (stage.drop bm).length := by simp; omega
  obtain ⟨d, rest, hdr⟩ : ∃ d rest, stage.drop bm = d :: rest := by
    cases hcase : stage.drop bm with
    | nil => rw [hcase] at hdroplen; simp at hdroplen
    | cons d rest => exact ⟨d, rest, rfl⟩
  have hsplit : stage = stage.take bm ++ d :: rest := by
    rw [← hdr, List.take_append_drop]
  have hABlen : (stage.take bm).length = bm := by simp; omega
  have hset : stage.set bm NUL = stage.take bm ++ NUL :: rest := by
    have hmid := set_middle (stage.take bm) d rest NUL
    rw [hABlen] at hmid
    conv_lhs => rw [hsplit]
    exact hmid
  have htw : (stage.take bm ++ NUL :: rest).takeWhile (fun c => c ≠ NUL) =
      stage.take bm := by
    apply takeWhile_middle
    · intro x hx; simp [hnul x hx]
    · simp
  rw [Writer.teardown, if_neg (by simp)]
  simp only [Writer.flush]
  rw [hset, htw]
  simp [obs]

theorem sprint_eq_flatten (dp : Char) (fmt : List Char) (params : List Parameter)
    (h : ∀ c ∈ untruncated fmt params dp, c ≠ NUL) :
    press_sprint dp fmt params = untruncated fmt params dp := by
  have hinv : StrInv stringWriter :=
    ⟨rfl, rfl, by simp [stringWriter], by simp [stringWriter], by simp [stringWriter]⟩
  have hn : ∀ p ∈ printer_writes fmt params dp, ∀ c ∈ p, c ≠ NUL := fun p hp c hc =>
    h c (List.mem_flatten.mpr ⟨p, hp, hc⟩)
  have hr := run_writes_str (printer_writes fmt params dp) stringWriter hinv hn
  rw [press_sprint, teardown_str _ hr.1, hr.2]
  simp [obs, stringWriter, untruncated]

/-! ### Claims: concrete rendering examples -/

/-- Claim C8. -/
theorem claim_C8 :
    stringify_int (-(2 ^ 63)) =
      ['-', '9', '2', '2', '3', '3', '7', '2', '0', '3', '6', '8', '5', '4', '7', '7', '5', '8', '0', '8'] ∧
    (stringify_int (-(2 ^ 63))).length = 20 := by
  constructor <;> decide

/-- Claim C6. -/
theorem claim_C6 :
    press_sprint '.' ['{', ',', '}'] [⟨.sint 25147236, -1, -1⟩] =
      ['2', '5', ',', '1', '4', '7', ',', '2', '3', '6'] ∧
    press_sprint '.' ['{', ',', '1', '2', '}'] [⟨.sint 25147236, -1, -1⟩] =
      [' ', ' ', '2', '5', ',', '1', '4', '7', ',', '2', '3', '6'] ∧
    (press_sprint '.' ['{', ',', '1', '2', '}'] [⟨.sint 25147236, -1, -1⟩]).length = max 12 10 := by
  refine ⟨?_, ?_, ?_⟩
  · rw [sprint_eq_flatten _ _ _ (by decide)]; decide
  · rw [sprint_eq_flatten _ _ _ (by decide)]; decide
  · rw [sprint_eq_flatten _ _ _ (by decide)]; decide

/-- Claim C7. -/
theorem claim_C7 :
    press_sprint '.'
      ['{', '@', '2', '}', ',', ' ', '{', '0', '5', '@', '1', '}', ',', ' ', '{', '-', '4', '@', '2', '}']
      [⟨.sint 31, -1, -1⟩, ⟨.sint 55, -1, -1⟩] =
      ['5', '5', ',', ' ', '0', '0', '0', '3', '1', ',', ' ', '5', '5', ' ', ' '] := by
  rw [sprint_eq_flatten _ _ _ (by decide)]; decide

theorem getc_mem_drop (fmt : List Char) (idx : Nat) (h : idx < fmt.length) :
    getc fmt idx ∈ fmt.drop idx := by
  rw [getc, List.getD_eq_getElem fmt NUL h]
  have h2 : 0 < (fmt.drop idx).length := by simp; omega
  have h3 : (fmt.drop idx)[0] = fmt[idx] := by
    rw [List.getElem_drop]
    simp
  rw [← h3]
  exact List.getElem_mem h2

theorem not_mem_drop_succ {c : Char} (fmt : List Char) (idx : Nat)
    (h : c ∉ fmt.drop idx) : c ∉ fmt.drop (idx + 1) := by
  intro hmem
  apply h
  have heq : fmt.drop (idx + 1) = (fmt.drop idx).drop 1 := by
    rw [List.drop_drop, Nat.add_comm]
  rw [heq] at hmem
  exact List.drop_subset _ _ hmem

theorem is_balancedAux_no_open (fmt : List Char) :
    ∀ (fuel index : Nat), '{' ∉ fmt.drop index →
      is_balancedAux fmt fmt.length fuel index 0 = true := by
  intro fuel
  induction fuel with
  | zero => intro idx _; simp [is_balancedAux]
  | succ fuel ih =>
    intro idx h
    rw [is_balancedAux]
    by_cases hx : idx ≥ fmt.length
    · simp [hx]
    · push_neg at hx
      have hco : getc fmt idx ≠ '{' := fun hc => h (hc ▸ getc_mem_drop fmt idx hx)
      rw [if_neg (by omega), if_neg hco]
      have hnext := not_mem_drop_succ fmt idx h
      by_cases hcc : getc fmt idx = '}'
      · rw [if_pos hcc, if_neg (by omega : ¬ (0:Nat) > 0)]
        exact ih (idx + 1) hnext
      · rw [if_neg hcc]
        exact ih (idx + 1) hnext

theorem count_specAux_no_open (fmt : List Char) :
    ∀ (fuel index count : Nat), '{' ∉ fmt.drop index →
      count_specAux fmt fmt.length fuel count index = count := by
  intro fuel
  induction fuel with
  | zero => intro idx count _; simp [count_specAux]
  | succ fuel ih =>
    intro idx count h
    rw [count_specAux]
    by_cases hx : idx ≥ fmt.length
    · simp [hx]
    · push_neg at hx
      have hco : getc fmt idx ≠ '{' := fun hc => h (hc ▸ getc_mem_drop fmt idx hx)
      rw [if_neg (by omega), if_pos hco]
      exact ih (idx + 1) count (not_mem_drop_succ fmt idx h)

theorem is_balancedAux_close_open (n : Nat) :
    ∀ (fuel k : Nat), k ≤ n → n + 1 ≤ k + fuel →
      is_balancedAux (List.replicate n '}' ++ ['{']) (n + 1) fuel k 0 = false := by
  intro fuel
  induction fuel with
  | zero => intro k h1 h2; omega
  | succ fuel ih =>
    intro k h1 h2
    rw [is_balancedAux, if_neg (by omega : ¬ k ≥ n + 1)]
    by_cases hk : k = n
    · subst hk
      have hg : getc (List.replicate k '}' ++ ['{']) k = '{' := by
        have := getc_middle (List.replicate k '}') '{' []
        simpa using this
      rw [hg]
      rw [if_pos rfl]
      have hlb : is_literal_brace (List.replicate k '}' ++ ['{']) (k + 1) k = false := by
        rw [is_literal_brace, if_pos (by omega)]
      rw [hlb]
      simp only [Bool.false_eq_true, if_false]
      cases fuel with
      | zero => simp [is_balancedAux]
      | succ fuel => rw [is_balancedAux, if_pos (by omega)]; rfl
    · have hkn : k < n := by omega
      have hg : getc (List.replicate n '}' ++ ['{']) k = '}' := by
        rw [getc, List.getD_append _ _ _ _ (by simp [hkn])]
        rw [List.getD_eq_getElem _ _ (by simp [hkn])]
        simp
      rw [hg]
      rw [if_neg (by decide), if_pos rfl, if_neg (by omega : ¬ (0:Nat) > 0)]
      exact ih (k + 1) (by omega) (by omega)

/-- Claim C10. -/
theorem claim_C10 :
    (∀ fmt : List Char, '{' ∉ fmt →
        is_balanced fmt fmt.length = true ∧ count_specifiers fmt fmt.length = 0) ∧
    (∀ n : Nat, is_balanced (List.replicate n '}' ++ ['{']) (n + 1) = false) := by
  constructor
  · intro fmt h
    exact ⟨is_balancedAux_no_open fmt (fmt.length + 1) 0 (by simpa using h),
      count_specAux_no_open fmt (fmt.length + 1) 0 0 (by simpa using h)⟩
  · intro n
    rw [is_balanced]
    exact is_balancedAux_close_open n (n + 2) 0 (by omega) (by omega)

theorem claim_C10_witness :
    is_balanced ['}'] 1 = true ∧ count_specifiers ['}'] 1 = 0 :=
  claim_C10.1 ['}'] (by decide)

/-! ### Bounds on parsed numbers -/

theorem consume_numberAux_bound (fmt : List Char) (len : Nat) :
    ∀ (fuel bookmark number : Nat) (found : Bool), number < 256 →
      (consume_numberAux fmt len fuel bookmark number found).2.1 < 256 := by
  intro fuel
  induction fuel with
  | zero => intro b n f h; simpa [consume_numberAux] using h
  | succ fuel ih =>
    intro b n f h
    rw [consume_numberAux]
    split
    · exact ih _ _ _ (Nat.mod_lt _ (by norm_num))
    · simpa using h

theorem consume_number_bound (fmt : List Char) (bookmark len : Nat) :
    -128 ≤ (consume_number fmt bookmark len).1 ∧ (consume_number fmt bookmark len).1 ≤ 127 := by
  rw [consume_number]
  have h := consume_numberAux_bound fmt len (len + 1) bookmark 0 false (by norm_num)
  by_cases hf : (consume_numberAux fmt len (len + 1) bookmark 0 false).2.2
  · simp only [hf, if_true, ucToSc]
    split <;> omega
  · simp only [hf, Bool.false_eq_true, if_false]
    omega

theorem consume_number_absent (fmt : List Char) (bookmark len : Nat)
    (h : ¬ (bookmark < len ∧ '0' ≤ getc fmt bookmark ∧ getc fmt bookmark ≤ '9')) :
    consume_number fmt bookmark len = (-1, bookmark) := by
  rw [consume_number, consume_numberAux, if_neg h]
  simp

theorem parse_guard_bound (len : Nat) (stage : Format × Nat → Format × Nat)
    (hstage : ∀ s : Format × Nat,
      -128 ≤ s.1.width ∧ s.1.width ≤ 127 ∧ -128 ≤ s.1.precision ∧ s.1.precision ≤ 127 →
      -128 ≤ (stage s).1.width ∧ (stage s).1.width ≤ 127 ∧
        -128 ≤ (stage s).1.precision ∧ (stage s).1.precision ≤ 127)
    (s : Format × Nat)
    (h : -128 ≤ s.1.width ∧ s.1.width ≤ 127 ∧ -128 ≤ s.1.precision ∧ s.1.precision ≤ 127) :
    -128 ≤ (parse_guard len stage s).1.width ∧ (parse_guard len stage s).1.width ≤ 127 ∧
      -128 ≤ (parse_guard len stage s).1.precision ∧
      (parse_guard len stage s).1.precision ≤ 127 := by
  rw [parse_guard]
  split
  · exact h
  · exact hstage s h

theorem parse_width_precision_bound (dp : Char) (fmt : List Char) (first len : Nat)
    (cfg : Format) (hw1 : -128 ≤ cfg.width) (hw2 : cfg.width ≤ 127)
    (hp1 : -128 ≤ cfg.precision) (hp2 : cfg.precision ≤ 127) :
    -128 ≤ (Format.parse dp fmt first len cfg).1.width ∧
      (Format.parse dp fmt first len cfg).1.width ≤ 127 ∧
      -128 ≤ (Format.parse dp fmt first len cfg).1.precision ∧
      (Format.parse dp fmt first len cfg).1.precision ≤ 127 := by
  rw [Format.parse]
  apply parse_guard_bound
  · intro s hs
    rw [parse_index_stage]
    split <;> simp_all
  apply parse_guard_bound
  · intro s hs
    rw [parse_prec_stage]
    split
    · have := consume_number_bound fmt (s.2 + 1) len
      simp_all
    · exact hs
  apply parse_guard_bound
  · intro s hs
    rw [parse_width_stage]
    have := consume_number_bound fmt s.2 len
    simp_all
  apply parse_guard_bound
  · intro s hs
    rw [parse_base_stage]
    split_ifs <;> simp_all
  apply parse_guard_bound
  · intro s hs
    rw [parse_pad_stage]
    split_ifs <;> simp_all
  apply parse_guard_bound
  · intro s hs
    rw [parse_sep_stage]
    split <;> simp_all
  apply parse_guard_bound
  · intro s hs
    rw [parse_sign_stage]
    split <;> simp_all
  exact ⟨hw1, hw2, hp1, hp2⟩

/-- Claim C9. -/
theorem claim_C9 :
    (∀ (fmt : List Char) (bookmark len : Nat),
        -128 ≤ (consume_number fmt bookmark len).1 ∧
          (consume_number fmt bookmark len).1 ≤ 127) ∧
    (∀ (fmt : List Char) (bookmark len : Nat),
        ¬(bookmark < len ∧ '0' ≤ getc fmt bookmark ∧ getc fmt bookmark ≤ '9') →
        consume_number fmt bookmark len = (-1, bookmark)) ∧
    (∀ (dp : Char) (fmt : List Char) (first len : Nat),
        -128 ≤ (Format.parse dp fmt first len {}).1.width ∧
          (Format.parse dp fmt first len {}).1.width ≤ 127 ∧
          -128 ≤ (Format.parse dp fmt first len {}).1.precision ∧
          (Format.parse dp fmt first len {}).1.precision ≤ 127) :=
  ⟨fun fmt bookmark len => consume_number_bound fmt bookmark len,
   fun fmt bookmark len h => consume_number_absent fmt bookmark len h,
   fun dp fmt first len =>
     parse_width_precision_bound dp fmt first len {} (by decide) (by decide) (by decide)
       (by decide)⟩

theorem claim_C9_witness : consume_number ['x'] 0 1 = (-1, 0) :=
  claim_C9.2.1 ['x'] 0 1 (by decide)

/-! ### Digit strings are positional digits -/

theorem digit_loop_eq_digits (toChar : Nat → Char) (base : Nat) (hb : 2 ≤ base) :
    ∀ (fuel n : Nat), n < base ^ fuel →
      digit_loop toChar base fuel n = (Nat.digits base n).map toChar := by
  intro fuel
  induction fuel with
  | zero =>
    intro n h
    simp only [pow_zero, Nat.lt_one_iff] at h
    subst h
    simp [digit_loop]
  | succ fuel ih =>
    intro n h
    by_cases h0 : n = 0
    · subst h0; simp [digit_loop]
    · rw [digit_loop, if_neg h0,
        Nat.digits_def' (by omega : 1 < base) (Nat.pos_of_ne_zero h0), List.map_cons]
      congr 1
      apply ih
      rw [Nat.div_lt_iff_lt_mul (by omega : 0 < base)]
      calc n < base ^ (fuel + 1) := h
        _ = base ^ fuel * base := by rw [pow_succ]

/-- Claim C5, counterexample: a signed argument with a hex descriptor is
rendered in decimal, not hexadecimal. -/
theorem claim_C5_counterexample :
    press_sprint '.' ['{', 'x', '}'] [⟨.sint 255, -1, -1⟩] = ['2', '5', '5'] ∧
    ['2', '5', '5'] ≠ ['f', 'f'] := by
  refine ⟨?_, by decide⟩
  rw [sprint_eq_flatten _ _ _ (by decide)]
  decide

/-- Claim C5, amended: the descriptor's base selects among hex-lower,
hex-upper, octal and decimal for unsigned arguments, whose digit string is
the reversed sequence of repeated-division digits; a signed argument is
always stringified in decimal, with a leading minus when negative. -/
theorem claim_C5_amended :
    (∀ (format : Format) (n : Nat), 0 < n → n < 2 ^ 64 →
        uint_digit_string n format =
          ((Nat.digits (intBase format) n).map (intDigitChar format)).reverse) ∧
    (∀ i : Int, 0 < i → i < 2 ^ 63 →
        stringify_int i = ((Nat.digits 10 i.natAbs).map decChar).reverse) ∧
    (∀ i : Int, -(2 ^ 63) < i → i < 0 →
        stringify_int i = '-' :: ((Nat.digits 10 i.natAbs).map decChar).reverse) := by
  have h16 : (2 : Nat) ^ 64 ≤ 16 ^ 66 :=
    le_trans (Nat.pow_le_pow_right (by norm_num) (by norm_num))
      (Nat.pow_le_pow_left (by norm_num) 66)
  have h10 : (2 : Nat) ^ 64 ≤ 10 ^ 66 :=
    le_trans (Nat.pow_le_pow_right (by norm_num) (by norm_num))
      (Nat.pow_le_pow_left (by norm_num) 66)
  have h8 : (2 : Nat) ^ 64 ≤ 8 ^ 66 :=
    le_trans (Nat.pow_le_pow_right (by norm_num) (by norm_num))
      (Nat.pow_le_pow_left (by norm_num) 66)
  refine ⟨?_, ?_, ?_⟩
  · intro format n hpos hlt
    by_cases hx : format.hex || format.hex_upper
    · rw [uint_digit_string, if_pos hx, stringify_int_hex, if_neg (by omega),
        digit_loop_eq_digits _ 16 (by norm_num) 66 n (by omega)]
      simp [intBase, intDigitChar, hx]
    · by_cases ho : format.oct
      · rw [uint_digit_string, if_neg hx, if_pos ho, stringify_int_oct, if_neg (by omega),
          digit_loop_eq_digits _ 8 (by norm_num) 66 n (by omega)]
        simp [intBase, intDigitChar, hx, ho]
      · rw [uint_digit_string, if_neg hx, if_neg ho, stringify_int_u, if_neg (by omega),
          digit_loop_eq_digits _ 10 (by norm_num) 66 n (by omega)]
        simp [intBase, intDigitChar, hx, ho]
  · intro i h0 hlt
    have hne : i ≠ -(2 ^ 63) := by omega
    have hnz : ¬ i.natAbs = 0 := by omega
    have hub : i.natAbs < 10 ^ 66 := by
      have : i.natAbs < 2 ^ 63 := by omega
      have h263 : (2 : Nat) ^ 63 ≤ 2 ^ 64 := Nat.pow_le_pow_right (by norm_num) (by norm_num)
      omega
    rw [stringify_int, if_neg hne]
    simp only [if_neg hnz]
    rw [digit_loop_eq_digits _ 10 (by norm_num) 66 i.natAbs hub]
    rw [if_neg (by omega : ¬ i < 0)]
    simp
  · intro i hlow hneg
    have hne : i ≠ -(2 ^ 63) := by omega
    have hnz : ¬ i.natAbs = 0 := by omega
    have hub : i.natAbs < 10 ^ 66 := by
      have : i.natAbs < 2 ^ 63 := by omega
      have h263 : (2 : Nat) ^ 63 ≤ 2 ^ 64 := Nat.pow_le_pow_right (by norm_num) (by norm_num)
      omega
    rw [stringify_int, if_neg hne]
    simp only [if_neg hnz]
    rw [digit_loop_eq_digits _ 10 (by norm_num) 66 i.natAbs hub]
    rw [if_pos (by omega : i < 0)]
    simp

theorem claim_C5_witness :
    uint_digit_string 255 { hex := true } =
      ((Nat.digits (intBase { hex := true }) 255).map (intDigitChar { hex := true })).reverse ∧
    stringify_int 255 = ((Nat.digits 10 (255 : Int).natAbs).map decChar).reverse :=
  ⟨claim_C5_amended.1 { hex := true } 255 (by decide) (by decide),
   claim_C5_amended.2.1 255 (by decide) (by decide)⟩

/-- Claim C1, counterexample: a balanced template with two real specifiers
passes the checked-mode validation with a single argument, and rendering
emits bytes, so unequal counts are not refused. -/
theorem claim_C1_counterexample :
    pressfmtcheck ['{', '}', ' ', '{', '}'] 1 = true ∧
    count_specifiers ['{', '}', ' ', '{', '}'] 5 ≠ 1 ∧
    press_sprint '.' ['{', '}', ' ', '{', '}'] [⟨.sint 33, -1, -1⟩] ≠ [] := by
  refine ⟨by decide, by decide, ?_⟩
  rw [sprint_eq_flatten _ _ _ (by decide)]
  decide

/-- Claim C1, amended: checked rendering refuses exactly when the template
is unbalanced or has fewer real specifiers than arguments; a template with
more specifiers than arguments passes the check and renders. -/
theorem claim_C1_amended :
    (∀ (fmt : List Char) (nargs : Nat), count_specifiers fmt fmt.length < nargs →
        pressfmtcheck fmt nargs = false) ∧
    (∀ (fmt : List Char) (nargs : Nat), is_balanced fmt fmt.length = true →
        nargs ≤ count_specifiers fmt fmt.length → pressfmtcheck fmt nargs = true) := by
  constructor
  · intro fmt nargs h
    simp only [pressfmtcheck, Bool.and_eq_false_iff]
    right
    simpa using by omega
  · intro fmt nargs h1 h2
    simp [pressfmtcheck, h1, h2]

theorem claim_C1_witness :
    pressfmtcheck ['{', '}'] 2 = false ∧ pressfmtcheck ['{', '}', ' ', '{', '}'] 1 = true :=
  ⟨claim_C1_amended.1 ['{', '}'] 2 (by decide),
   claim_C1_amended.2 ['{', '}', ' ', '{', '}'] 1 (by decide) (by decide)⟩

/-! ### BUFFER writer: the staged bytes are the truncated write stream -/

theorem write_buf (cap : Nat) (stage0 Q buf : List Char) (h0 : stage0.length = cap) :
    Writer.write
      { target := .BUFFER, stage := Q.take (min Q.length cap) ++ stage0.drop (min Q.length cap),
        bookmark := min Q.length cap, size := cap, out := [] } buf =
      { target := .BUFFER,
        stage := (Q ++ buf).take (min (Q ++ buf).length cap) ++
          stage0.drop (min (Q ++ buf).length cap),
        bookmark := min (Q ++ buf).length cap, size := cap, out := [] } := by
  simp only [Writer.write, Writer.writeAux, Writer.flush, Bool.false_eq_true, if_false,
    ite_self, Writer.mk.injEq, true_and, and_true]
  constructor
  · by_cases hq : Q.length ≤ cap
    · by_cases hb : buf.length ≤ cap - Q.length
      · have h1 : Q.length ⊓ cap = Q.length := by omega
        rw [h1]
        have h2 : (cap - Q.length) ⊓ buf.length = buf.length := by omega
        rw [h2]
        have h3 : (Q ++ buf).length ⊓ cap = Q.length + buf.length := by simp; omega
        rw [h3, List.take_length, List.take_length, listOverwrite]
        rw [List.take_left]
        rw [List.drop_append_eq_append_drop, List.drop_eq_nil_of_le (by omega),
          List.nil_append, Nat.add_sub_cancel_left, List.drop_drop]
        rw [List.take_append_eq_append_take, List.take_of_length_le (by omega),
          Nat.add_sub_cancel_left, List.take_length]
      · have h1 : Q.length ⊓ cap = Q.length := by omega
        rw [h1]
        have h2 : (cap - Q.length) ⊓ buf.length = cap - Q.length := by omega
        rw [h2]
        have h3 : (Q ++ buf).length ⊓ cap = cap := by simp; omega
        rw [h3, List.take_length, listOverwrite, List.length_take, h2, List.take_left]
        have h5 : Q.length + (cap - Q.length) = cap := by omega
        rw [h5]
        rw [List.drop_append_eq_append_drop, List.drop_eq_nil_of_le (by omega),
          List.nil_append, List.drop_drop, h5, List.drop_eq_nil_of_le (by omega)]
        conv_rhs => rw [List.take_append_eq_append_take, List.take_of_length_le (by omega)]
    · have h1 : Q.length ⊓ cap = cap := by omega
      rw [h1]
      have h2 : (cap - cap) ⊓ buf.length = 0 := by omega
      rw [h2, List.take_zero]
      have h3 : (Q ++ buf).length ⊓ cap = cap := by simp; omega
      rw [h3, listOverwrite, List.length_nil, Nat.add_zero]
      rw [List.drop_eq_nil_of_le (by omega)]
      simp only [List.append_nil]
      rw [List.take_take, min_self]
      rw [List.drop_eq_nil_of_le (by simp)]
      conv_rhs => rw [List.take_append_eq_append_take]
      have h6 : cap - Q.length = 0 := by omega
      rw [h6, List.take_zero]
  · simp only [List.length_append]
    omega

theorem run_writes_buf (cap : Nat) (stage0 : List Char) (h0 : stage0.length = cap) :
    ∀ (ws : List (List Char)) (Q : List Char),
      run_writes
        { target := .BUFFER,
          stage := Q.take (min Q.length cap) ++ stage0.drop (min Q.length cap),
          bookmark := min Q.length cap, size := cap, out := [] } ws =
      { target := .BUFFER,
        stage := (Q ++ ws.flatten).take (min (Q ++ ws.flatten).length cap) ++
          stage0.drop (min (Q ++ ws.flatten).length cap),
        bookmark := min (Q ++ ws.flatten).length cap, size := cap, out := [] } := by
  intro ws
  induction ws with
  | nil => intro Q; simp [run_writes]
  | cons p rest ih =>
    intro Q
    have h1 : ∀ w : Writer, run_writes w (p :: rest) = run_writes (w.write p) rest := by
      intro w; simp [run_writes]
    rw [h1, write_buf cap stage0 Q p h0, ih (Q ++ p)]
    simp [List.append_assoc]

/-- Claim C2: when the untruncated rendered output is longer than a
nonempty fixed buffer's capacity, rendering into that buffer leaves exactly
the first `capacity - 1` output bytes followed by a NUL terminator, and the
buffer keeps its length (nothing is written past it); the excess bytes are
dropped without any error. -/
theorem claim_C2 (dp : Char) (fmt : List Char) (params : List Parameter) (cap : Nat)
    (stage0 : List Char) (h0 : stage0.length = cap) (h1 : 1 ≤ cap)
    (h2 : cap < (untruncated fmt params dp).length) :
    press_bprint dp fmt params cap stage0 =
      (untruncated fmt params dp).take (cap - 1) ++ [NUL] ∧
    (press_bprint dp fmt params cap stage0).length = cap := by
  rw [untruncated] at h2
  have hi : bufferWriter cap stage0 =
      { target := .BUFFER,
        stage := ([] : List Char).take (min ([] : List Char).length cap) ++
          stage0.drop (min ([] : List Char).length cap),
        bookmark := min ([] : List Char).length cap, size := cap, out := [] } := by
    simp [bufferWriter]
  have hmain : press_bprint dp fmt params cap stage0 =
      (untruncated fmt params dp).take (cap - 1) ++ [NUL] := by
    rw [press_bprint, hi, run_writes_buf cap stage0 h0 (printer_writes fmt params dp) []]
    simp only [List.nil_append]
    have hm : (printer_writes fmt params dp).flatten.length ⊓ cap = cap := by omega
    rw [hm]
    rw [Writer.teardown, if_pos (by exact ⟨rfl, by show 0 < cap; omega⟩)]
    simp only
    rw [if_pos (by show cap ≥ cap; omega)]
    rw [List.drop_eq_nil_of_le (by omega), List.append_nil]
    rw [List.set_eq_take_append_cons_drop,
      if_pos (by rw [List.length_take]; omega)]
    have hc1 : cap - 1 + 1 = cap := by omega
    rw [List.take_take, hc1, List.drop_of_length_le (by rw [List.length_take]; omega)]
    have hmin : (cap - 1) ⊓ cap = cap - 1 := by omega
    rw [hmin, untruncated]
  refine ⟨hmain, ?_⟩
  rw [hmain, untruncated, List.length_append, List.length_take]
  simp only [List.length_cons, List.length_nil]
  omega

theorem claim_C2_witness :
    press_bprint '.' ['h', 'e', 'l', 'l', 'o', ' ', 'w', 'o', 'r', 'l', 'd'] [] 6
        (List.replicate 6 'Z') =
      (untruncated ['h', 'e', 'l', 'l', 'o', ' ', 'w', 'o', 'r', 'l', 'd'] [] '.').take 5 ++
        [NUL] ∧
    (press_bprint '.' ['h', 'e', 'l', 'l', 'o', ' ', 'w', 'o', 'r', 'l', 'd'] [] 6
        (List.replicate 6 'Z')).length = 6 :=
  claim_C2 '.' ['h', 'e', 'l', 'l', 'o', ' ', 'w', 'o', 'r', 'l', 'd'] [] 6
    (List.replicate 6 'Z') (by decide) (by decide) (by decide)

/-! ### Literal-brace scanning helpers -/

theorem is_literal_brace_false_fst (fmt : List Char) (len index : Nat)
    (h : getc fmt index ≠ '{') : is_literal_brace fmt len index = false := by
  rw [is_literal_brace]
  split
  · rfl
  · simp [h]

theorem is_literal_brace_false_snd (fmt : List Char) (len index : Nat)
    (h : getc fmt (index + 1) ≠ '{') : is_literal_brace fmt len index = false := by
  rw [is_literal_brace]
  split
  · rfl
  · simp [h]

theorem find_lbAux_none (fmt : List Char) (len : Nat) :
    ∀ (fuel index : Nat),
      (∀ p, index ≤ p → p < len → is_literal_brace fmt len p = false) →
      find_lbAux fmt len fuel index = none := by
  intro fuel
  induction fuel with
  | zero => intro index h; rfl
  | succ fuel ih =>
    intro index h
    rw [find_lbAux]
    split
    · rw [h index (le_refl _) (by omega), ih (index + 1) (fun p hp hpl => h p (by omega) hpl)]
      simp
    · rfl

theorem find_lbAux_found (fmt : List Char) (len : Nat) (q : Nat)
    (hq : is_literal_brace fmt len q = true) (hqlen : q < len) :
    ∀ (fuel index : Nat), index ≤ q → q < index + fuel →
      (∀ p, index ≤ p → p < q → is_literal_brace fmt len p = false) →
      find_lbAux fmt len fuel index = some q := by
  intro fuel
  induction fuel with
  | zero => intro index h1 h2 _; omega
  | succ fuel ih =>
    intro index h1 h2 h3
    rw [find_lbAux]
    by_cases hi : index = q
    · subst hi
      rw [if_pos (by omega), hq]
      simp
    · rw [if_pos (by omega), h3 index (le_refl _) (by omega)]
      simp only [Bool.false_eq_true, if_false]
      exact ih (index + 1) (by omega) (by omega) (fun p hp hpq => h3 p (by omega) hpq)

theorem printer_loopAux_done (fmt : List Char) (len : Nat) (params : List Parameter)
    (dp : Char) (specCount : Nat) (fuel k bookmark : Nat) (h : specCount ≤ k) :
    printer_loopAux fmt len params dp specCount fuel k bookmark = ([], some bookmark) := by
  cases fuel <;> simp [printer_loopAux, Nat.not_lt.mpr h]

theorem getc_mem_middle (pre s tail : List Char) (p : Nat) (h1 : pre.length ≤ p)
    (h2 : p < pre.length + s.length) :
    getc (pre ++ (s ++ tail)) p ∈ s := by
  rw [getc, List.getD_append_right _ _ _ _ h1, List.getD_append _ _ _ _ (by omega),
    List.getD_eq_getElem _ _ (by omega)]
  exact List.getElem_mem _

theorem count_specAux_skip (s : List Char) :
    ∀ (T pre tail : List Char) (fuel count : Nat), (∀ c ∈ s, c ≠ '{') →
      T = pre ++ (s ++ tail) →
      count_specAux T T.length (fuel + s.length) count pre.length =
        count_specAux T T.length fuel count (pre.length + s.length) := by
  induction s with
  | nil => intro T pre tail fuel count _ _; simp
  | cons c s ih =>
    intro T pre tail fuel count h hT
    have hgc : getc T pre.length = c := by
      rw [hT]
      have := getc_middle pre c (s ++ tail)
      simpa using this
    have hlen : T.length = pre.length + (s.length + 1) + tail.length := by
      subst hT; simp; omega
    have hfs : fuel + (c :: s).length = (fuel + s.length) + 1 := by simp; omega
    rw [hfs, count_specAux, if_neg (by omega), if_pos (by rw [hgc]; exact h c (by simp))]
    have hT' : T = (pre ++ [c]) ++ (s ++ tail) := by rw [hT]; simp
    have := ih T (pre ++ [c]) tail fuel count (fun x hx => h x (by simp [hx])) hT'
    simp only [List.length_append, List.length_cons, List.length_nil] at this ⊢
    have e1 : pre.length + 1 = pre.length + (0 + 1) := by omega
    rw [e1] at this
    have e2 : pre.length + (0 + 1) + s.length = pre.length + (s.length + 1) := by omega
    rw [e2] at this
    exact this

theorem escJoin_cons_cons (s s2 : List Char) (rest : List (List Char)) :
    escJoin (s :: s2 :: rest) = s ++ '{' :: '{' :: '}' :: escJoin (s2 :: rest) := rfl

theorem braceJoin_cons_cons (s s2 : List Char) (rest : List (List Char)) :
    braceJoin (s :: s2 :: rest) = s ++ '{' :: braceJoin (s2 :: rest) := rfl

theorem escJoin_length_ineq : ∀ segs : List (List Char),
    segs.length ≤ (escJoin segs).length + 1 := by
  intro segs
  match segs with
  | [] => simp [escJoin]
  | [s] => simp [escJoin]
  | s :: s2 :: rest =>
    have := escJoin_length_ineq (s2 :: rest)
    rw [escJoin_cons_cons]
    simp at this ⊢
    omega

theorem count_specAux_escJoin : ∀ (segs : List (List Char)) (T pre : List Char)
    (fuel count : Nat), (∀ s ∈ segs, ∀ c ∈ s, c ≠ '{') → T = pre ++ escJoin segs →
    count_specAux T T.length (fuel + (escJoin segs).length + 1) count pre.length = count := by
  intro segs
  match segs with
  | [] =>
    intro T pre fuel count _ hT
    have hT' : T = pre := by simpa [escJoin] using hT
    subst hT'
    rw [show (escJoin ([] : List (List Char))).length = 0 from rfl]
    rw [show fuel + 0 + 1 = fuel + 1 from by omega, count_specAux, if_pos (by omega)]
  | [s] =>
    intro T pre fuel count h hT
    have hT' : T = pre ++ (s ++ []) := by simpa [escJoin] using hT
    have hsk := count_specAux_skip s T pre [] (fuel + 1) count
      (fun c hc => (h s (by simp) c hc)) hT'
    rw [show fuel + (escJoin [s]).length + 1 = (fuel + 1) + s.length from by simp only [escJoin]; omega]
    rw [hsk]
    have hlen : T.length = pre.length + s.length := by rw [hT']; simp
    rw [count_specAux, if_pos (by omega)]
  | s :: s2 :: rest =>
    intro T pre fuel count h hT
    rw [escJoin_cons_cons] at hT
    have hT' : T = pre ++ (s ++ ('{' :: '{' :: '}' :: escJoin (s2 :: rest))) := by
      simp [hT]
    have hlen : T.length =
        pre.length + s.length + 3 + (escJoin (s2 :: rest)).length := by
      rw [hT']; simp; omega
    have hsk := count_specAux_skip s T pre ('{' :: '{' :: '}' :: escJoin (s2 :: rest))
      (fuel + (escJoin (s2 :: rest)).length + 4) count
      (fun c hc => (h s (by simp) c hc)) hT'
    rw [show fuel + (escJoin (s :: s2 :: rest)).length + 1 =
      (fuel + (escJoin (s2 :: rest)).length + 4) + s.length from by
        rw [escJoin_cons_cons]; simp; omega]
    rw [hsk]
    -- boundary: literal brace at pre.length + s.length
    have hg0 : getc T (pre.length + s.length + 0) = '{' := by
      rw [hT']
      have e : pre ++ (s ++ ('{' :: '{' :: '}' :: escJoin (s2 :: rest))) =
          (pre ++ s) ++ ('{' :: '{' :: '}' :: escJoin (s2 :: rest)) := by simp
      rw [e]
      have := getc_middle_add (pre ++ s) ('{' :: '{' :: '}' :: escJoin (s2 :: rest)) 0
      simpa using this
    have hg1 : getc T (pre.length + s.length + 1) = '{' := by
      rw [hT']
      have e : pre ++ (s ++ ('{' :: '{' :: '}' :: escJoin (s2 :: rest))) =
          (pre ++ s) ++ ('{' :: '{' :: '}' :: escJoin (s2 :: rest)) := by simp
      rw [e]
      have := getc_middle_add (pre ++ s) ('{' :: '{' :: '}' :: escJoin (s2 :: rest)) 1
      simpa using this
    have hg2 : getc T (pre.length + s.length + 2) = '}' := by
      rw [hT']
      have e : pre ++ (s ++ ('{' :: '{' :: '}' :: escJoin (s2 :: rest))) =
          (pre ++ s) ++ ('{' :: '{' :: '}' :: escJoin (s2 :: rest)) := by simp
      rw [e]
      have := getc_middle_add (pre ++ s) ('{' :: '{' :: '}' :: escJoin (s2 :: rest)) 2
      simpa using this
    have hg0' : getc T (pre.length + s.length) = '{' := by
      have := hg0; rwa [Nat.add_zero] at this
    have hlb : is_literal_brace T T.length (pre.length + s.length) = true := by
      rw [is_literal_brace, if_neg (by omega)]
      rw [hg0', hg1, hg2]
      rfl
    rw [show fuel + (escJoin (s2 :: rest)).length + 4 =
      (fuel + (escJoin (s2 :: rest)).length + 3) + 1 from by omega]
    rw [count_specAux, if_neg (by omega), if_neg (by simp [hg0']), hlb]
    simp only [if_true]
    -- recurse into the remaining segments
    have hT'' : T = (pre ++ s ++ ['{', '{', '}']) ++ escJoin (s2 :: rest) := by
      rw [hT']; simp
    have := count_specAux_escJoin (s2 :: rest) T (pre ++ s ++ ['{', '{', '}'])
      (fuel + 2) count (fun t ht c hc => h t (by simp [ht]) c hc) hT''
    rw [show (fuel + 2) + (escJoin (s2 :: rest)).length + 1 =
      fuel + (escJoin (s2 :: rest)).length + 3 from by omega] at this
    rw [show (pre ++ s ++ ['{', '{', '}']).length = pre.length + s.length + 3 from by
      simp; omega] at this
    exact this

theorem printer_tail_loop_escJoin : ∀ (segs : List (List Char)) (T pre : List Char)
    (fuel : Nat), (∀ s ∈ segs, ∀ c ∈ s, c ≠ '{') → T = pre ++ escJoin segs →
    ∃ ws fin,
      printer_tail_loop T T.length (fuel + segs.length + 1) pre.length = (ws, fin) ∧
      ws.flatten ++ (T.drop fin).take (T.length - fin) = braceJoin segs := by
  intro segs
  match segs with
  | [] =>
    intro T pre fuel _ hT
    have hlen : T.length = pre.length := by rw [hT]; simp [escJoin]
    refine ⟨[], pre.length, ?_, ?_⟩
    · rw [show fuel + ([] : List (List Char)).length + 1 = fuel + 1 from by simp]
      rw [printer_tail_loop, find_lb,
        find_lbAux_none _ _ _ _ (fun p hp hpl => absurd hpl (by omega))]
    · rw [show braceJoin ([] : List (List Char)) = [] from rfl,
        show T.length - pre.length = 0 from by omega]
      simp
  | [s] =>
    intro T pre fuel h hT
    have hT' : T = pre ++ (s ++ []) := by simpa [escJoin] using hT
    have hlen : T.length = pre.length + s.length := by rw [hT']; simp
    refine ⟨[], pre.length, ?_, ?_⟩
    · rw [show fuel + [s].length + 1 = (fuel + 1) + 1 from by simp, printer_tail_loop]
      rw [find_lb, find_lbAux_none _ _ _ _ ?hreg]
      case hreg =>
        intro p hp hpl
        apply is_literal_brace_false_fst
        have hmem : getc T p ∈ s := by
          rw [hT']
          exact getc_mem_middle pre s [] p hp (by omega)
        exact h s (by simp) _ hmem
    · rw [show braceJoin [s] = s from rfl]
      rw [hT']
      simp
  | s :: s2 :: rest =>
    intro T pre fuel h hT
    rw [escJoin_cons_cons] at hT
    have hT' : T = pre ++ (s ++ ('{' :: '{' :: '}' :: escJoin (s2 :: rest))) := by
      simp [hT]
    have hlen : T.length =
        pre.length + s.length + 3 + (escJoin (s2 :: rest)).length := by
      rw [hT']; simp; omega
    have e : pre ++ (s ++ ('{' :: '{' :: '}' :: escJoin (s2 :: rest))) =
        (pre ++ s) ++ ('{' :: '{' :: '}' :: escJoin (s2 :: rest)) := by simp
    have hg0 : getc T (pre.length + s.length) = '{' := by
      rw [hT', e]
      have := getc_middle_add (pre ++ s) ('{' :: '{' :: '}' :: escJoin (s2 :: rest)) 0
      simpa using this
    have hg1 : getc T (pre.length + s.length + 1) = '{' := by
      rw [hT', e]
      have := getc_middle_add (pre ++ s) ('{' :: '{' :: '}' :: escJoin (s2 :: rest)) 1
      simpa using this
    have hg2 : getc T (pre.length + s.length + 2) = '}' := by
      rw [hT', e]
      have := getc_middle_add (pre ++ s) ('{' :: '{' :: '}' :: escJoin (s2 :: rest)) 2
      simpa using this
    have hlb : is_literal_brace T T.length (pre.length + s.length) = true := by
      rw [is_literal_brace, if_neg (by omega), hg0, hg1, hg2]
      rfl
    have hfind : find_lb T T.length pre.length = some (pre.length + s.length) := by
      rw [find_lb]
      apply find_lbAux_found T T.length (pre.length + s.length) hlb (by omega)
        (T.length + 1) pre.length (by omega) (by omega)
      intro p hp hpq
      apply is_literal_brace_false_fst
      have hmem : getc T p ∈ s := by
        rw [hT']
        exact getc_mem_middle pre s _ p hp (by omega)
      exact h s (by simp) _ hmem
    have hT'' : T = (pre ++ s ++ ['{', '{', '}']) ++ escJoin (s2 :: rest) := by
      rw [hT']; simp
    obtain ⟨ws, fin, heq, hflat⟩ := printer_tail_loop_escJoin (s2 :: rest) T
      (pre ++ s ++ ['{', '{', '}']) fuel (fun t ht c hc => h t (by simp [ht]) c hc) hT''
    rw [show (pre ++ s ++ ['{', '{', '}']).length = pre.length + s.length + 3 from by
      simp; omega] at heq
    refine ⟨(T.drop pre.length).take (pre.length + s.length - pre.length) :: ['{'] :: ws,
      fin, ?_, ?_⟩
    · rw [show fuel + (s :: s2 :: rest).length + 1 = (fuel + (s2 :: rest).length + 1) + 1
        from by simp; omega, printer_tail_loop, hfind]
      simp only [heq]
    · have hbefore : (T.drop pre.length).take (pre.length + s.length - pre.length) = s := by
        rw [hT']
        rw [show pre.length + s.length - pre.length = s.length from by omega]
        rw [List.drop_left]
        rw [List.take_left]
      rw [hbefore, braceJoin_cons_cons]
      simp only [List.flatten_cons]
      rw [← hflat]
      simp
  termination_by segs => segs.length

theorem braceJoin_mem : ∀ (segs : List (List Char)) (c : Char), c ∈ braceJoin segs →
    c = '{' ∨ ∃ s ∈ segs, c ∈ s := by
  intro segs
  match segs with
  | [] => intro c hc; simp [braceJoin] at hc
  | [s] =>
    intro c hc
    right
    exact ⟨s, by simp, by simpa [braceJoin] using hc⟩
  | s :: s2 :: rest =>
    intro c hc
    rw [braceJoin_cons_cons] at hc
    rcases List.mem_append.mp hc with h | h
    · right; exact ⟨s, by simp, h⟩
    · rcases List.mem_cons.mp h with h | h
      · left; exact h
      · rcases braceJoin_mem (s2 :: rest) c h with h | ⟨t, ht, hct⟩
        · left; exact h
        · right; exact ⟨t, List.mem_cons_of_mem s ht, hct⟩

theorem braceJoin_eq_nil (segs : List (List Char)) (h : (escJoin segs).length = 0) :
    braceJoin segs = [] := by
  match segs with
  | [] => rfl
  | [s] =>
    have hs : s = [] := by
      rw [show escJoin [s] = s from rfl] at h
      exact List.length_eq_zero.mp h
    rw [show braceJoin [s] = s from rfl, hs]
  | s :: s2 :: rest =>
    rw [escJoin_cons_cons] at h
    simp at h

theorem escJoin_length_le (segs : List (List Char)) (h : 0 < (escJoin segs).length) :
    segs.length ≤ (escJoin segs).length := by
  match segs with
  | [] => simp
  | [s] => simpa [escJoin] using h
  | s :: s2 :: rest =>
    have := escJoin_length_ineq (s2 :: rest)
    rw [escJoin_cons_cons]
    simp at this ⊢
    omega

theorem count_specifiers_escJoin (segs : List (List Char))
    (h : ∀ s ∈ segs, ∀ c ∈ s, c ≠ '{') :
    count_specifiers (escJoin segs) (escJoin segs).length = 0 := by
  have := count_specAux_escJoin segs (escJoin segs) [] 0 0 h (by simp)
  simpa [count_specifiers] using this

theorem untruncated_escJoin (dp : Char) (segs : List (List Char))
    (h : ∀ s ∈ segs, ∀ c ∈ s, c ≠ '{' ∧ c ≠ '}') :
    untruncated (escJoin segs) [] dp = braceJoin segs := by
  have hcount := count_specifiers_escJoin segs (fun s hs c hc => (h s hs c hc).1)
  rw [untruncated, printer_writes]
  simp only [hcount]
  rw [printer_loopAux_done _ _ _ _ _ _ 0 0 (le_refl 0)]
  simp only [List.nil_append]
  by_cases hlen0 : 0 < (escJoin segs).length
  · rw [printer_tail, if_pos hlen0]
    have hn := escJoin_length_le segs hlen0
    obtain ⟨ws, fin, heq, hflat⟩ := printer_tail_loop_escJoin segs (escJoin segs) []
      ((escJoin segs).length - segs.length) (fun s hs c hc => (h s hs c hc).1) (by simp)
    rw [show ((escJoin segs).length - segs.length) + segs.length + 1 =
      (escJoin segs).length + 1 from by omega] at heq
    simp only [List.length_nil] at heq
    rw [heq]
    simp only [List.flatten_append, List.flatten_cons, List.flatten_nil, List.append_nil]
    exact hflat
  · rw [printer_tail, if_neg (by omega)]
    rw [braceJoin_eq_nil segs (by omega)]
    rfl

/-- Claim C3: a template assembled from brace-free segments with the
literal-brace escape at each boundary has no real specifiers, and rendering
it with zero arguments reproduces the segments with a single open brace at
each escape position (never consuming an argument). -/
theorem claim_C3 (dp : Char) (segs : List (List Char))
    (h : ∀ s ∈ segs, ∀ c ∈ s, plainChar c) :
    count_specifiers (escJoin segs) (escJoin segs).length = 0 ∧
    press_sprint dp (escJoin segs) [] = braceJoin segs := by
  have hbr : ∀ s ∈ segs, ∀ c ∈ s, c ≠ '{' ∧ c ≠ '}' := fun s hs c hc =>
    ⟨(h s hs c hc).1, (h s hs c hc).2.1⟩
  have hfl := untruncated_escJoin dp segs hbr
  refine ⟨count_specifiers_escJoin segs (fun s hs c hc => (h s hs c hc).1), ?_⟩
  rw [sprint_eq_flatten dp _ [] ?hnul, hfl]
  case hnul =>
    rw [hfl]
    intro c hc
    rcases braceJoin_mem segs c hc with h1 | ⟨s, hs, hcs⟩
    · subst h1; decide
    · exact (h s hs c hcs).2.2

theorem claim_C3_witness :
    count_specifiers (escJoin [['a'], ['b']]) (escJoin [['a'], ['b']]).length = 0 ∧
    press_sprint '.' (escJoin [['a'], ['b']]) [] = braceJoin [['a'], ['b']] :=
  claim_C3 '.' [['a'], ['b']] (by simp only [plainChar]; decide)

theorem char_toNat_le {a b : Char} (h : a ≤ b) : a.toNat ≤ b.toNat := by
  rw [Char.le_def] at h
  exact h

theorem consume_numberAux_stop (fmt : List Char) (len fuel b n : Nat) (f : Bool)
    (h : ¬ (b < len ∧ '0' ≤ getc fmt b ∧ getc fmt b ≤ '9')) :
    consume_numberAux fmt len fuel b n f = (b, n, f) := by
  cases fuel
  · rfl
  · rw [consume_numberAux, if_neg h]

theorem consume_number_digit_single (fmt : List Char) (bookmark len : Nat)
    (h1 : bookmark < len) (hd1 : '0' ≤ getc fmt bookmark) (hd2 : getc fmt bookmark ≤ '9')
    (h2 : ¬ (bookmark + 1 < len ∧ '0' ≤ getc fmt (bookmark + 1) ∧
      getc fmt (bookmark + 1) ≤ '9')) :
    consume_number fmt bookmark len =
      ((((getc fmt bookmark).toNat - 48 : Nat) : Int), bookmark + 1) := by
  have hub : (getc fmt bookmark).toNat ≤ 57 := by
    have := char_toNat_le hd2
    simpa using this
  have hcnd : bookmark < len ∧ '0' ≤ getc fmt bookmark ∧ getc fmt bookmark ≤ '9' :=
    ⟨h1, hd1, hd2⟩
  rw [consume_number, consume_numberAux, if_pos hcnd,
    consume_numberAux_stop fmt len _ _ _ _ h2]
  have e : (0 * 10 + (getc fmt bookmark).toNat - '0'.toNat) % 256 =
      (getc fmt bookmark).toNat - 48 := by
    rw [show '0'.toNat = 48 from rfl, Nat.zero_mul, Nat.zero_add]
    exact Nat.mod_eq_of_lt (by omega)
  simp only [e, ucToSc]
  rw [if_pos trivial, if_pos (by omega : (getc fmt bookmark).toNat - 48 < 128)]

theorem find_partnerAux_skip (s : List Char) :
    ∀ (T pre tail : List Char) (fuel : Nat), (∀ c ∈ s, c ≠ '}') →
      T = pre ++ (s ++ tail) →
      find_partnerAux T T.length (fuel + s.length) pre.length =
        find_partnerAux T T.length fuel (pre.length + s.length) := by
  induction s with
  | nil => intro T pre tail fuel _ _; simp
  | cons c s ih =>
    intro T pre tail fuel h hT
    have hgc : getc T pre.length = c := by
      rw [hT]
      have := getc_middle pre c (s ++ tail)
      simpa using this
    have hlen : T.length = pre.length + (s.length + 1) + tail.length := by
      subst hT; simp; omega
    have hfs : fuel + (c :: s).length = (fuel + s.length) + 1 := by simp; omega
    rw [hfs, find_partnerAux, if_neg (by omega), if_neg (by rw [hgc]; exact h c (by simp))]
    have hT' : T = (pre ++ [c]) ++ (s ++ tail) := by rw [hT]; simp
    have := ih T (pre ++ [c]) tail fuel (fun x hx => h x (by simp [hx])) hT'
    simp only [List.length_append, List.length_cons, List.length_nil] at this ⊢
    have e1 : pre.length + 1 = pre.length + (0 + 1) := by omega
    rw [e1] at this
    have e2 : pre.length + (0 + 1) + s.length = pre.length + (s.length + 1) := by omega
    rw [e2] at this
    exact this

theorem find_partnerAux_close (fmt : List Char) (len fuel index : Nat)
    (h1 : index < len) (h2 : getc fmt index = '}') (h3 : 0 < fuel) :
    find_partnerAux fmt len fuel index = some index := by
  cases fuel
  · omega
  · rw [find_partnerAux, if_neg (by omega), h2]
    simp

end Press

namespace Press

theorem parse_inert (dp : Char) (fmt : List Char) (first len : Nat) (h1 : first < len)
    (n1 : getc fmt first ≠ ' ') (n2 : getc fmt first ≠ ',')
    (n3 : getc fmt first ≠ '0') (n4 : getc fmt first ≠ '-')
    (n5 : getc fmt first ≠ 'x') (n6 : getc fmt first ≠ 'X')
    (n7 : getc fmt first ≠ 'o')
    (n8 : ¬ (first < len ∧ '0' ≤ getc fmt first ∧ getc fmt first ≤ '9'))
    (n9 : getc fmt first ≠ '.') (n10 : getc fmt first ≠ '@') :
    Format.parse dp fmt first len {} = ({}, first) := by
  have hguard : ¬ (first ≥ len) := by omega
  have e1 : parse_guard len (parse_sign_stage fmt) ({}, first) = ({}, first) := by
    rw [parse_guard, if_neg hguard, parse_sign_stage, if_neg n1]
  have e2 : parse_guard len (parse_sep_stage dp fmt) ({}, first) = ({}, first) := by
    rw [parse_guard, if_neg hguard, parse_sep_stage, if_neg n2]
  have e3 : parse_guard len (parse_pad_stage fmt) ({}, first) = ({}, first) := by
    rw [parse_guard, if_neg hguard, parse_pad_stage, if_neg n3, if_neg n4]
  have e4 : parse_guard len (parse_base_stage fmt) ({}, first) = ({}, first) := by
    rw [parse_guard, if_neg hguard, parse_base_stage, if_neg n5, if_neg n6, if_neg n7]
  have e5 : parse_guard len (parse_width_stage fmt len) ({}, first) = ({}, first) := by
    rw [parse_guard, if_neg hguard, parse_width_stage, consume_number_absent fmt first len n8]
  have e6 : parse_guard len (parse_prec_stage fmt len) ({}, first) = ({}, first) := by
    rw [parse_guard, if_neg hguard, parse_prec_stage, if_neg n9]
  have e7 : parse_guard len (parse_index_stage fmt len) ({}, first) = ({}, first) := by
    rw [parse_guard, if_neg hguard, parse_index_stage, if_neg n10]
  rw [Format.parse, e1, e2, e3, e4, e5, e6, e7]

end Press

namespace Press

theorem parse_spec_digit (dp : Char) (pre suf : List Char) (c : Char)
    (hc1 : '1' ≤ c) (hc2 : c ≤ '9') :
    Format.parse dp (pre ++ '{' :: '@' :: c :: '}' :: suf) (pre.length + 1)
        (pre ++ '{' :: '@' :: c :: '}' :: suf).length {} =
      ({ index := ((c.toNat - 48 : Nat) : Int) }, pre.length + 3) := by
  have hlen : (pre ++ '{' :: '@' :: c :: '}' :: suf).length = pre.length + 4 + suf.length := by
    simp; omega
  have g1 : getc (pre ++ '{' :: '@' :: c :: '}' :: suf) (pre.length + 1) = '@' := by
    have := getc_middle (pre ++ ['{']) '@' (c :: '}' :: suf)
    simpa using this
  have g2 : getc (pre ++ '{' :: '@' :: c :: '}' :: suf) (pre.length + 2) = c := by
    have := getc_middle (pre ++ ['{', '@']) c ('}' :: suf)
    simpa [Nat.add_assoc] using this
  have g3 : getc (pre ++ '{' :: '@' :: c :: '}' :: suf) (pre.length + 3) = '}' := by
    have := getc_middle (pre ++ ['{', '@', c]) '}' suf
    simpa [Nat.add_assoc] using this
  have hguard : ¬ (pre.length + 1 ≥ (pre ++ '{' :: '@' :: c :: '}' :: suf).length) := by
    omega
  have hcn2 : consume_number (pre ++ '{' :: '@' :: c :: '}' :: suf) (pre.length + 2)
      (pre ++ '{' :: '@' :: c :: '}' :: suf).length =
      (((c.toNat - 48 : Nat) : Int), pre.length + 3) := by
    have hd1 : '0' ≤ getc (pre ++ '{' :: '@' :: c :: '}' :: suf) (pre.length + 2) := by
      rw [g2]; exact le_trans (by decide) hc1
    have hd2 : getc (pre ++ '{' :: '@' :: c :: '}' :: suf) (pre.length + 2) ≤ '9' := by
      rw [g2]; exact hc2
    have h2 : ¬ (pre.length + 2 + 1 < (pre ++ '{' :: '@' :: c :: '}' :: suf).length ∧
        '0' ≤ getc (pre ++ '{' :: '@' :: c :: '}' :: suf) (pre.length + 2 + 1) ∧
        getc (pre ++ '{' :: '@' :: c :: '}' :: suf) (pre.length + 2 + 1) ≤ '9') := by
      rintro ⟨_, _, hx⟩
      rw [show pre.length + 2 + 1 = pre.length + 3 from by omega, g3] at hx
      exact absurd hx (by decide)
    have := consume_number_digit_single (pre ++ '{' :: '@' :: c :: '}' :: suf)
      (pre.length + 2) (pre ++ '{' :: '@' :: c :: '}' :: suf).length (by omega) hd1 hd2 h2
    rw [g2, show pre.length + 2 + 1 = pre.length + 3 from by omega] at this
    exact this
  have e1 : parse_guard (pre ++ '{' :: '@' :: c :: '}' :: suf).length
      (parse_sign_stage (pre ++ '{' :: '@' :: c :: '}' :: suf)) ({}, pre.length + 1) =
      ({}, pre.length + 1) := by
    rw [parse_guard, if_neg hguard, parse_sign_stage, if_neg (by rw [g1]; decide)]
  have e2 : parse_guard (pre ++ '{' :: '@' :: c :: '}' :: suf).length
      (parse_sep_stage dp (pre ++ '{' :: '@' :: c :: '}' :: suf)) ({}, pre.length + 1) =
      ({}, pre.length + 1) := by
    rw [parse_guard, if_neg hguard, parse_sep_stage, if_neg (by rw [g1]; decide)]
  have e3 : parse_guard (pre ++ '{' :: '@' :: c :: '}' :: suf).length
      (parse_pad_stage (pre ++ '{' :: '@' :: c :: '}' :: suf)) ({}, pre.length + 1) =
      ({}, pre.length + 1) := by
    rw [parse_guard, if_neg hguard, parse_pad_stage, if_neg (by rw [g1]; decide),
      if_neg (by rw [g1]; decide)]
  have e4 : parse_guard (pre ++ '{' :: '@' :: c :: '}' :: suf).length
      (parse_base_stage (pre ++ '{' :: '@' :: c :: '}' :: suf)) ({}, pre.length + 1) =
      ({}, pre.length + 1) := by
    rw [parse_guard, if_neg hguard, parse_base_stage, if_neg (by rw [g1]; decide),
      if_neg (by rw [g1]; decide), if_neg (by rw [g1]; decide)]
  have e5 : parse_guard (pre ++ '{' :: '@' :: c :: '}' :: suf).length
      (parse_width_stage (pre ++ '{' :: '@' :: c :: '}' :: suf)
        (pre ++ '{' :: '@' :: c :: '}' :: suf).length) ({}, pre.length + 1) =
      ({}, pre.length + 1) := by
    rw [parse_guard, if_neg hguard, parse_width_stage,
      consume_number_absent _ _ _ (by rintro ⟨_, _, hx⟩; rw [g1] at hx; exact absurd hx (by decide))]
  have e6 : parse_guard (pre ++ '{' :: '@' :: c :: '}' :: suf).length
      (parse_prec_stage (pre ++ '{' :: '@' :: c :: '}' :: suf)
        (pre ++ '{' :: '@' :: c :: '}' :: suf).length) ({}, pre.length + 1) =
      ({}, pre.length + 1) := by
    rw [parse_guard, if_neg hguard, parse_prec_stage, if_neg (by rw [g1]; decide)]
  have e7 : parse_guard (pre ++ '{' :: '@' :: c :: '}' :: suf).length
      (parse_index_stage (pre ++ '{' :: '@' :: c :: '}' :: suf)
        (pre ++ '{' :: '@' :: c :: '}' :: suf).length) ({}, pre.length + 1) =
      ({ index := ((c.toNat - 48 : Nat) : Int) }, pre.length + 3) := by
    rw [parse_guard, if_neg hguard, parse_index_stage, if_pos g1,
      show pre.length + 1 + 1 = pre.length + 2 from by omega, hcn2]
  rw [Format.parse, e1, e2, e3, e4, e5, e6, e7]

end Press

namespace Press

theorem count_specAux_end (fmt : List Char) (len fuel count index : Nat) (h : index ≥ len) :
    count_specAux fmt len fuel count index = count := by
  cases fuel <;> simp [count_specAux, h]

theorem count_single (pre inner suf : List Char)
    (hpre : ∀ ch ∈ pre, ch ≠ '{')
    (hinner : ∀ ch ∈ inner, ch ≠ '{' ∧ ch ≠ '}')
    (hsuf : ∀ ch ∈ suf, ch ≠ '{') :
    count_specifiers (pre ++ '{' :: (inner ++ '}' :: suf))
      (pre ++ '{' :: (inner ++ '}' :: suf)).length = 1 := by
  have hlen : (pre ++ '{' :: (inner ++ '}' :: suf)).length =
      pre.length + inner.length + 2 + suf.length := by
    simp; omega
  have g0 : getc (pre ++ '{' :: (inner ++ '}' :: suf)) pre.length = '{' :=
    getc_middle pre '{' (inner ++ '}' :: suf)
  have g1 : getc (pre ++ '{' :: (inner ++ '}' :: suf)) (pre.length + 1) ≠ '{' := by
    have hm := getc_mem_middle (pre ++ ['{']) (inner ++ ['}']) suf (pre ++ ['{']).length
      (le_refl _) (by simp)
    have he : getc (pre ++ ['{'] ++ (inner ++ ['}'] ++ suf)) (pre ++ ['{']).length =
        getc (pre ++ '{' :: (inner ++ '}' :: suf)) (pre.length + 1) := by
      simp
    rw [he] at hm
    rcases List.mem_append.mp hm with hi | hc
    · exact (hinner _ hi).1
    · simp at hc; rw [hc]; decide
  have gp : getc (pre ++ '{' :: (inner ++ '}' :: suf)) (pre.length + 1 + inner.length) = '}' := by
    have hdec : (pre ++ '{' :: (inner ++ '}' :: suf)) =
        (pre ++ '{' :: inner) ++ '}' :: suf := by simp
    rw [show pre.length + 1 + inner.length = (pre ++ '{' :: inner).length from by simp; omega,
      hdec]
    exact getc_middle _ '}' suf
  have hfp : find_partner (pre ++ '{' :: (inner ++ '}' :: suf))
      (pre ++ '{' :: (inner ++ '}' :: suf)).length (pre.length + 1) =
      some (pre.length + 1 + inner.length) := by
    rw [find_partner]
    have hskip := find_partnerAux_skip inner (pre ++ '{' :: (inner ++ '}' :: suf))
      (pre ++ ['{']) ('}' :: suf)
      ((pre ++ '{' :: (inner ++ '}' :: suf)).length + 1 - inner.length)
      (fun c hc => (hinner c hc).2) (by simp)
    rw [show (pre ++ '{' :: (inner ++ '}' :: suf)).length + 1 =
      (pre ++ '{' :: (inner ++ '}' :: suf)).length + 1 - inner.length + inner.length
      from by simp; omega]
    have h1 : (pre ++ ['{']).length = pre.length + 1 := by simp
    rw [h1] at hskip
    rw [hskip, find_partnerAux_close _ _ _ _ (by omega) gp (by simp; omega)]
  have hskip2 := count_specAux_skip suf (pre ++ '{' :: (inner ++ '}' :: suf))
    (pre ++ '{' :: (inner ++ ['}'])) [] (inner.length + 2) 1
    hsuf (by simp)
  have h2 : (pre ++ '{' :: (inner ++ ['}'])).length = pre.length + 1 + inner.length + 1 := by
    simp; omega
  rw [h2] at hskip2
  have hstep1 : count_specAux (pre ++ '{' :: (inner ++ '}' :: suf))
      (pre ++ '{' :: (inner ++ '}' :: suf)).length
      (inner.length + suf.length + 3) 0 pre.length = 1 := by
    rw [show inner.length + suf.length + 3 = (inner.length + suf.length + 2) + 1 from rfl,
      count_specAux, if_neg (by omega), if_neg (by rw [g0]; simp),
      if_neg (by rw [is_literal_brace_false_snd _ _ _ g1]; simp), hfp]
    show count_specAux (pre ++ '{' :: (inner ++ '}' :: suf))
      (pre ++ '{' :: (inner ++ '}' :: suf)).length
      (inner.length + suf.length + 2) (0 + 1) (pre.length + 1 + inner.length + 1) = 1
    rw [show (0 : Nat) + 1 = 1 from rfl,
      show inner.length + suf.length + 2 = inner.length + 2 + suf.length from by omega,
      hskip2]
    exact count_specAux_end _ _ _ _ _ (by omega)
  rw [count_specifiers]
  have hskip0 := count_specAux_skip pre (pre ++ '{' :: (inner ++ '}' :: suf)) []
    ('{' :: (inner ++ '}' :: suf)) (inner.length + suf.length + 3) 0 hpre (by simp)
  simp only [List.length_nil, Nat.zero_add] at hskip0
  rw [show (pre ++ '{' :: (inner ++ '}' :: suf)).length + 1 =
    (inner.length + suf.length + 3) + pre.length from by simp; omega, hskip0, hstep1]

end Press

namespace Press

theorem printer_tail_flatten (fmt : List Char) (bookmark : Nat)
    (h : ∀ p, bookmark ≤ p → p < fmt.length → is_literal_brace fmt fmt.length p = false) :
    (printer_tail fmt fmt.length bookmark).flatten = fmt.drop bookmark := by
  rw [printer_tail]
  by_cases hb : bookmark < fmt.length
  · rw [if_pos hb]
    have hloop : printer_tail_loop fmt fmt.length (fmt.length + 1) bookmark =
        ([], bookmark) := by
      rw [printer_tail_loop, find_lb, find_lbAux_none fmt fmt.length _ _
        (fun p h1 h2 => h p h1 h2)]
    rw [hloop]
    simp
  · rw [if_neg hb]
    rw [List.drop_eq_nil_of_le (by omega)]
    rfl

theorem printer_writes_single (dp : Char) (pre inner suf : List Char)
    (params : List Parameter) (cfg : Format)
    (hpre : ∀ ch ∈ pre, ch ≠ '{' ∧ ch ≠ '}')
    (hinner : ∀ ch ∈ inner, ch ≠ '{' ∧ ch ≠ '}')
    (hsuf : ∀ ch ∈ suf, ch ≠ '{' ∧ ch ≠ '}')
    (hparse : Format.parse dp (pre ++ '{' :: (inner ++ '}' :: suf)) (pre.length + 1)
        (pre ++ '{' :: (inner ++ '}' :: suf)).length {} =
      (cfg, pre.length + 1 + inner.length))
    (hover : 0 ≤ cfg.index → cfg.index - 1 < 0 ∨ (params.length : Int) ≤ cfg.index - 1)
    (himp : ¬ 0 ≤ cfg.index → (params.length : Int) ≤ 0) :
    (printer_writes (pre ++ '{' :: (inner ++ '}' :: suf)) params dp).flatten =
      pre ++ UNDEFINED ++ suf := by
  have hlen : (pre ++ '{' :: (inner ++ '}' :: suf)).length =
      pre.length + inner.length + 2 + suf.length := by
    simp; omega
  have hcount := count_single pre inner suf (fun c hc => (hpre c hc).1) hinner
    (fun c hc => (hsuf c hc).1)
  have g1 : getc (pre ++ '{' :: (inner ++ '}' :: suf)) (pre.length + 1) ≠ '{' := by
    have hm := getc_mem_middle (pre ++ ['{']) (inner ++ ['}']) suf (pre ++ ['{']).length
      (le_refl _) (by simp)
    have he : getc (pre ++ ['{'] ++ (inner ++ ['}'] ++ suf)) (pre ++ ['{']).length =
        getc (pre ++ '{' :: (inner ++ '}' :: suf)) (pre.length + 1) := by
      simp
    rw [he] at hm
    rcases List.mem_append.mp hm with hi | hc
    · exact (hinner _ hi).1
    · simp at hc; rw [hc]; decide
  have htw : ((pre ++ '{' :: (inner ++ '}' :: suf)).drop 0).takeWhile (· ≠ '{') = pre := by
    rw [List.drop_zero]
    exact takeWhile_middle pre '{' (inner ++ '}' :: suf)
      (fun x hx => by simp [(hpre x hx).1]) (by simp)
  have hbefore : ((pre ++ '{' :: (inner ++ '}' :: suf)).drop 0).take (0 + pre.length - 0) =
      pre := by
    rw [List.drop_zero]
    simp
  have hloop : printer_loopAux (pre ++ '{' :: (inner ++ '}' :: suf))
      (pre ++ '{' :: (inner ++ '}' :: suf)).length params dp 1
      ((pre ++ '{' :: (inner ++ '}' :: suf)).length + 1) 0 0 =
      ([pre, UNDEFINED], some (pre.length + 1 + inner.length + 1)) := by
    rw [printer_loopAux, if_pos (by omega)]
    simp only [htw, hbefore]
    rw [if_neg (by omega), if_neg (by rw [is_literal_brace_false_snd _ _ _
      (by rw [show 0 + pre.length + 1 = pre.length + 1 from by omega]; exact g1)]; simp)]
    rw [show 0 + pre.length + 1 = pre.length + 1 from by omega, hparse]
    rw [printer_loopAux_done _ _ _ _ _ _ 1 _ (le_refl 1),
      show ((cfg, pre.length + 1 + inner.length).1) = cfg from rfl,
      show ((cfg, pre.length + 1 + inner.length).2) = pre.length + 1 + inner.length from rfl]
    by_cases hov : cfg.index ≥ 0
    · rw [if_pos hov, if_pos ⟨hov, hover hov⟩]
      simp
    · rw [if_neg hov, if_neg (fun hx => hov hx.1),
        if_pos ⟨hov, by exact_mod_cast himp hov⟩]
      simp
  rw [printer_writes]
  simp only [hcount, hloop]
  rw [show pre.length + 1 + inner.length + 1 = pre.length + inner.length + 2 from by omega]
  have htail := printer_tail_flatten (pre ++ '{' :: (inner ++ '}' :: suf))
    (pre.length + inner.length + 2) ?hnb
  case hnb =>
    intro p h1 h2
    refine is_literal_brace_false_fst _ _ _ ?_
    have hdec : (pre ++ '{' :: (inner ++ '}' :: suf)) =
        (pre ++ '{' :: (inner ++ ['}'])) ++ (suf ++ []) := by simp
    have hm := getc_mem_middle (pre ++ '{' :: (inner ++ ['}'])) suf [] p
      (by simp; omega) (by simp; omega)
    rw [← hdec] at hm
    exact (hsuf _ hm).1
  have hdropsuf : (pre ++ '{' :: (inner ++ '}' :: suf)).drop
      (pre.length + inner.length + 2) = suf := by
    have hdec : (pre ++ '{' :: (inner ++ '}' :: suf)) =
        (pre ++ '{' :: (inner ++ ['}'])) ++ suf := by simp
    rw [hdec, List.drop_append_of_le_length (by simp; omega),
      List.drop_eq_nil_of_le (by simp; omega), List.nil_append]
  rw [List.flatten_append, htail, hdropsuf]
  simp [UNDEFINED]

end Press

namespace Press

/-- Claim C4: in unchecked rendering, a specifier whose resolved argument
index is out of range of the argument array — whether an explicit 1-based
`@N` index past the end, or the implicit sequential index with no argument
left — emits the fixed brace-wrapped placeholder text `UNDEFINED` at the
specifier's position, the remainder of the template still renders, and no
error is raised. -/
theorem claim_C4 (dp : Char) (pre suf : List Char) (params : List Parameter) (c : Char)
    (hpre : ∀ ch ∈ pre, plainChar ch) (hsuf : ∀ ch ∈ suf, plainChar ch)
    (hc1 : '1' ≤ c) (hc2 : c ≤ '9') (hrange : params.length < c.toNat - 48) :
    press_sprint dp (pre ++ '{' :: '@' :: c :: '}' :: suf) params =
      pre ++ UNDEFINED ++ suf ∧
    press_sprint dp (pre ++ '{' :: '}' :: suf) [] = pre ++ UNDEFINED ++ suf := by
  have hpre2 : ∀ ch ∈ pre, ch ≠ '{' ∧ ch ≠ '}' := fun ch h =>
    ⟨(hpre ch h).1, (hpre ch h).2.1⟩
  have hsuf2 : ∀ ch ∈ suf, ch ≠ '{' ∧ ch ≠ '}' := fun ch h =>
    ⟨(hsuf ch h).1, (hsuf ch h).2.1⟩
  have hcnat : 49 ≤ c.toNat ∧ c.toNat ≤ 57 :=
    ⟨char_toNat_le hc1, char_toNat_le hc2⟩
  constructor
  · have hsh : pre ++ '{' :: '@' :: c :: '}' :: suf =
        pre ++ '{' :: (['@', c] ++ '}' :: suf) := by simp
    have hinner : ∀ ch ∈ (['@', c] : List Char), ch ≠ '{' ∧ ch ≠ '}' := by
      intro ch hch
      rcases (by simpa using hch : ch = '@' ∨ ch = c) with h | h
      · rw [h]; exact ⟨by decide, by decide⟩
      · rw [h]
        constructor
        · intro hq; rw [hq] at hc2; exact absurd (char_toNat_le hc2) (by decide)
        · intro hq; rw [hq] at hc2; exact absurd (char_toNat_le hc2) (by decide)
    have hparse : Format.parse dp (pre ++ '{' :: (['@', c] ++ '}' :: suf))
        (pre.length + 1) (pre ++ '{' :: (['@', c] ++ '}' :: suf)).length {} =
        (({ index := ((c.toNat - 48 : Nat) : Int) } : Format),
          pre.length + 1 + (['@', c] : List Char).length) := by
      rw [show pre ++ '{' :: (['@', c] ++ '}' :: suf) =
        pre ++ '{' :: '@' :: c :: '}' :: suf from by simp,
        parse_spec_digit dp pre suf c hc1 hc2]
      simp
    have hidx : (({ index := ((c.toNat - 48 : Nat) : Int) } : Format)).index =
        ((c.toNat - 48 : Nat) : Int) := rfl
    have hw := printer_writes_single dp pre ['@', c] suf params
      ({ index := ((c.toNat - 48 : Nat) : Int) } : Format)
      hpre2 hinner hsuf2 hparse
      (by intro _; right; rw [hidx]; omega)
      (by intro h; rw [hidx] at h; exact absurd (Int.natCast_nonneg _) h)
    have huntr : untruncated (pre ++ '{' :: '@' :: c :: '}' :: suf) params dp =
        pre ++ UNDEFINED ++ suf := by
      rw [untruncated, hsh]
      exact hw
    rw [sprint_eq_flatten dp _ params ?hnul, huntr]
    case hnul =>
      rw [huntr]
      intro x hx
      rcases List.mem_append.mp hx with hx' | hx'
      · rcases List.mem_append.mp hx' with hp | hu
        · exact (hpre x hp).2.2
        · exact (by decide : ∀ y ∈ UNDEFINED, y ≠ NUL) x hu
      · exact (hsuf x hx').2.2
  · have hsh : pre ++ '{' :: '}' :: suf = pre ++ '{' :: (([] : List Char) ++ '}' :: suf) := by
      simp
    have gq : getc (pre ++ '{' :: '}' :: suf) (pre.length + 1) = '}' := by
      have := getc_middle (pre ++ ['{']) '}' suf
      simpa using this
    have hparse : Format.parse dp (pre ++ '{' :: (([] : List Char) ++ '}' :: suf))
        (pre.length + 1) (pre ++ '{' :: (([] : List Char) ++ '}' :: suf)).length {} =
        (({} : Format), pre.length + 1 + ([] : List Char).length) := by
      rw [show pre ++ '{' :: (([] : List Char) ++ '}' :: suf) =
        pre ++ '{' :: '}' :: suf from by simp]
      have hlen2 : (pre ++ '{' :: '}' :: suf).length = pre.length + 2 + suf.length := by
        simp; omega
      rw [parse_inert dp (pre ++ '{' :: '}' :: suf) (pre.length + 1)
        (pre ++ '{' :: '}' :: suf).length (by omega)
        (by rw [gq]; decide) (by rw [gq]; decide) (by rw [gq]; decide)
        (by rw [gq]; decide) (by rw [gq]; decide) (by rw [gq]; decide)
        (by rw [gq]; decide)
        (by rintro ⟨_, _, hx⟩; rw [gq] at hx; exact absurd hx (by decide))
        (by rw [gq]; decide) (by rw [gq]; decide)]
      simp
    have hw := printer_writes_single dp pre [] suf [] ({} : Format)
      hpre2 (by intro ch hch; exact absurd hch (by simp)) hsuf2 hparse
      (by intro h; exact absurd h (by decide))
      (by intro _; simp)
    have huntr : untruncated (pre ++ '{' :: '}' :: suf) [] dp =
        pre ++ UNDEFINED ++ suf := by
      rw [untruncated, hsh]
      exact hw
    rw [sprint_eq_flatten dp _ [] ?hnul2, huntr]
    case hnul2 =>
      rw [huntr]
      intro x hx
      rcases List.mem_append.mp hx with hx' | hx'
      · rcases List.mem_append.mp hx' with hp | hu
        · exact (hpre x hp).2.2
        · exact (by decide : ∀ y ∈ UNDEFINED, y ≠ NUL) x hu
      · exact (hsuf x hx').2.2

theorem claim_C4_witness :
    press_sprint '.' (['a'] ++ '{' :: '@' :: '3' :: '}' :: ['b']) [] =
      ['a'] ++ UNDEFINED ++ ['b'] ∧
    press_sprint '.' (['a'] ++ '{' :: '}' :: ['b']) [] = ['a'] ++ UNDEFINED ++ ['b'] :=
  claim_C4 '.' ['a'] ['b'] [] '3' (by simp only [plainChar]; decide)
    (by simp only [plainChar]; decide) (by decide) (by decide) (by decide)

end Press
